import Mathlib

/-!
Shallow embedding of the matching core of the `personnalites` repository:
the exact/fuzzy duplicate reducers and the cross-file matcher of
`src/app/api/process-excel/route.ts` and `src/app/api/match-columns/route.ts`,
together with the value normalizer, signature builder and similarity scorers
they depend on.  JavaScript strings are modelled as Lean `String`
(a wrapper around `List Char`), JavaScript numbers appearing in similarity
scores and thresholds as `ℚ`, and dynamically typed cell values as a tagged
union `Value`.  Records are mappings from column names to
optional cell values (`none` models a JS `undefined` / missing key).
-/

/-- Whitespace test used by the model of JavaScript's `String.prototype.trim`
(space, tab, line feed, carriage return). -/
def jsIsWS (c : Char) : Bool :=
  (c == ' ') || (c == '\t') || (c == '\n') || (c == '\r')

/-- ASCII lower-casing of one character, the model of what
`String.prototype.toLowerCase` does on the ASCII range. -/
def jsLowerChar (c : Char) : Char :=
  if 65 ≤ c.toNat ∧ c.toNat ≤ 90 then Char.ofNat (c.toNat + 32) else c

/-- Drop leading whitespace from a character list. -/
def trimFront (l : List Char) : List Char := l.dropWhile jsIsWS

/-- Drop trailing whitespace from a character list. -/
def trimBack (l : List Char) : List Char := (trimFront l.reverse).reverse

/-- Model of JavaScript `String.prototype.trim` on character lists. -/
def trimChars (l : List Char) : List Char := trimBack (trimFront l)

/-- Model of `String(x).trim().toLowerCase()` seen as a `String → String`
function: trim first, then lower-case every character. -/
def jsTrimLower (s : String) : String := ⟨(trimChars s.data).map jsLowerChar⟩

/-- Scalar cell values of a record: the dynamically typed values the two
route handlers actually read from parsed spreadsheet rows. -/
inductive Value where
  | vstr (s : String)
  | vnum (n : Int)
  | vbool (b : Bool)
  | vnull
deriving DecidableEq

/-- Model of JavaScript `String(value)` for scalar values. -/
def jsValueToString (v : Value) : String :=
  match v with
  | .vstr s => s
  | .vnum n => toString n
  | .vbool b => if b then "true" else "false"
  | .vnull => "null"

/-- A record: a mapping from column name to an optional scalar value;
`none` plays the role of a missing key (JS `undefined`). -/
def Record := String → Option Value

/-- Normalization of one cell value in the signature-building context of
`process-excel/route.ts` (`createSignature`): null and undefined become the
literal token `"NULL"`, anything else is stringified, trimmed, lower-cased. -/
def normalizeSigValue (v : Option Value) : String :=
  match v with
  | none => "NULL"
  | some .vnull => "NULL"
  | some w => jsTrimLower (jsValueToString w)

/-- `createSignature` of `process-excel/route.ts`: normalize the selected
columns in order and join them with a single space. -/
def createSignature (row : Record) (columns : List String) : String :=
  String.intercalate " " (columns.map fun col => normalizeSigValue (row col))

/-- `normalizeValue` of `match-columns/route.ts`: null and undefined become
the empty string, anything else is stringified, trimmed, lower-cased. -/
def normalizeValue (v : Option Value) : String :=
  match v with
  | none => ""
  | some .vnull => ""
  | some w => jsTrimLower (jsValueToString w)

theorem charOfNat_toNat (n : Nat) (h : n.isValidChar) : (Char.ofNat n).toNat = n := by
  simp [Char.ofNat, h, Char.toNat, Char.ofNatAux, UInt32.toNat, BitVec.toNat_ofNatLt]

theorem jsLowerChar_toNat (c : Char) (h : 65 ≤ c.toNat ∧ c.toNat ≤ 90) :
    (jsLowerChar c).toNat = c.toNat + 32 := by
  have hv : (c.toNat + 32).isValidChar := by left; omega
  simp only [jsLowerChar, h, if_true]
  exact charOfNat_toNat _ hv

theorem jsLowerChar_eq_self (c : Char) (h : ¬ (65 ≤ c.toNat ∧ c.toNat ≤ 90)) :
    jsLowerChar c = c := if_neg h

theorem jsLowerChar_idem (c : Char) : jsLowerChar (jsLowerChar c) = jsLowerChar c := by
  by_cases h : 65 ≤ c.toNat ∧ c.toNat ≤ 90
  · have htn := jsLowerChar_toNat c h
    exact jsLowerChar_eq_self (jsLowerChar c) (by omega)
  · rw [jsLowerChar_eq_self c h]; exact jsLowerChar_eq_self c h

theorem jsIsWS_eq_false_of_ge (d : Char) (h : 65 ≤ d.toNat) : jsIsWS d = false := by
  have hsp : d ≠ ' ' := by
    intro he; rw [he] at h
    have : (' ').toNat = 32 := by decide
    omega
  have htab : d ≠ '\t' := by
    intro he; rw [he] at h
    have : ('\t').toNat = 9 := by decide
    omega
  have hnl : d ≠ '\n' := by
    intro he; rw [he] at h
    have : ('\n').toNat = 10 := by decide
    omega
  have hcr : d ≠ '\r' := by
    intro he; rw [he] at h
    have : ('\r').toNat = 13 := by decide
    omega
  simp [jsIsWS, hsp, htab, hnl, hcr]

theorem jsIsWS_lower (c : Char) : jsIsWS (jsLowerChar c) = jsIsWS c := by
  by_cases h : 65 ≤ c.toNat ∧ c.toNat ≤ 90
  · have htn := jsLowerChar_toNat c h
    rw [jsIsWS_eq_false_of_ge (jsLowerChar c) (by omega),
      jsIsWS_eq_false_of_ge c (by omega)]
  · rw [jsLowerChar_eq_self c h]

theorem trimFront_cons_ws (c : Char) (t : List Char) (h : jsIsWS c = true) :
    trimFront (c :: t) = trimFront t := by
  simp [trimFront, List.dropWhile_cons, h]

theorem trimFront_cons_not_ws (c : Char) (t : List Char) (h : jsIsWS c = false) :
    trimFront (c :: t) = c :: t := by
  simp [trimFront, List.dropWhile_cons, h]

theorem trimFront_head (l : List Char) (c : Char) (t : List Char)
    (h : trimFront l = c :: t) : jsIsWS c = false := by
  induction l with
  | nil => simp [trimFront] at h
  | cons a as ih =>
    by_cases ha : jsIsWS a
    · rw [trimFront_cons_ws a as ha] at h; exact ih h
    · rw [trimFront_cons_not_ws a as (by simp [ha])] at h
      cases h; simp [ha]

theorem trimFront_eq_self (l : List Char)
    (h : ∀ c t, l = c :: t → jsIsWS c = false) : trimFront l = l := by
  cases l with
  | nil => rfl
  | cons a as => exact trimFront_cons_not_ws a as (h a as rfl)

theorem trimFront_suffix (l : List Char) : ∃ u, l = u ++ trimFront l := by
  induction l with
  | nil => exact ⟨[], rfl⟩
  | cons a as ih =>
    by_cases ha : jsIsWS a
    · obtain ⟨u, hu⟩ := ih
      exact ⟨a :: u, by rw [trimFront_cons_ws a as ha]; simpa using hu⟩
    · exact ⟨[], by rw [trimFront_cons_not_ws a as (by simp [ha])]; rfl⟩

theorem trimBack_decomp (l : List Char) : ∃ u, l = trimBack l ++ u := by
  obtain ⟨u, hu⟩ := trimFront_suffix l.reverse
  refine ⟨u.reverse, ?_⟩
  have := congrArg List.reverse hu
  simpa [trimBack, List.reverse_append] using this

theorem trimBack_reverse (l : List Char) :
    (trimBack l).reverse = trimFront l.reverse := by
  simp [trimBack]

theorem trimChars_head (l : List Char) (c : Char) (t : List Char)
    (h : trimChars l = c :: t) : jsIsWS c = false := by
  obtain ⟨u, hu⟩ := trimBack_decomp (trimFront l)
  rw [show trimChars l = trimBack (trimFront l) from rfl] at h
  rw [h] at hu
  exact trimFront_head l c (t ++ u) (by simpa using hu)

theorem trimChars_reverse_head (l : List Char) (c : Char) (t : List Char)
    (h : (trimChars l).reverse = c :: t) : jsIsWS c = false := by
  rw [show trimChars l = trimBack (trimFront l) from rfl, trimBack_reverse] at h
  exact trimFront_head (trimFront l).reverse c t h

theorem trimChars_eq_self (l : List Char)
    (h1 : ∀ c t, l = c :: t → jsIsWS c = false)
    (h2 : ∀ c t, l.reverse = c :: t → jsIsWS c = false) :
    trimChars l = l := by
  have hf : trimFront l = l := trimFront_eq_self l h1
  show trimBack (trimFront l) = l
  rw [hf]
  have hr : trimFront l.reverse = l.reverse := trimFront_eq_self l.reverse h2
  simp [trimBack, hr]

theorem trimChars_idem (l : List Char) : trimChars (trimChars l) = trimChars l := by
  exact trimChars_eq_self (trimChars l) (trimChars_head l) (trimChars_reverse_head l)

theorem trimFront_map_lower (l : List Char) :
    trimFront (l.map jsLowerChar) = (trimFront l).map jsLowerChar := by
  have hp : (jsIsWS ∘ jsLowerChar) = jsIsWS := by
    funext c; exact jsIsWS_lower c
  simp [trimFront, List.dropWhile_map, hp]

theorem trimChars_map_lower (l : List Char) :
    trimChars (l.map jsLowerChar) = (trimChars l).map jsLowerChar := by
  show trimBack (trimFront (l.map jsLowerChar)) = (trimChars l).map jsLowerChar
  rw [trimFront_map_lower]
  simp only [trimBack, ← List.map_reverse, trimFront_map_lower]
  simp [trimChars, trimBack]

theorem map_lower_idem (l : List Char) :
    (l.map jsLowerChar).map jsLowerChar = l.map jsLowerChar := by
  rw [List.map_map]
  exact List.map_congr_left fun c _ => jsLowerChar_idem c

/-- The trim-then-lowercase normalizer is idempotent as a string function. -/
theorem jsTrimLower_idem (s : String) : jsTrimLower (jsTrimLower s) = jsTrimLower s := by
  show (⟨(trimChars ((trimChars s.data).map jsLowerChar)).map jsLowerChar⟩ : String) =
    ⟨(trimChars s.data).map jsLowerChar⟩
  rw [trimChars_map_lower, trimChars_idem, map_lower_idem]


/-- Helper giving a structurally recursive presentation of the Levenshtein
recursion: `levxs` stands for the distance function of the tail `xs`, and
`xlen` for `xs.length`, so that the whole computation reduces in the kernel. -/
def levDistAux (xlen : Nat) (x : Char) (levxs : List Char → Nat) : List Char → Nat
  | [] => xlen + 1
  | y :: ys =>
    if x = y then levxs ys
    else 1 + min (levxs ys) (min (levDistAux xlen x levxs ys) (levxs (y :: ys)))

/-- Modelled from the spec: `natural.LevenshteinDistance` is an external
library function, not code of this repository; the spec (§4.3) describes it
as the raw edit distance (unit-cost insertion, deletion, substitution),
symmetric by definition.  Classic recursion on character lists. -/
def levDist : List Char → List Char → Nat
  | [], ys => ys.length
  | x :: xs, ys => levDistAux xs.length x (levDist xs) ys

theorem levDist_nil_left (ys : List Char) : levDist [] ys = ys.length := rfl

theorem levDist_nil_right (xs : List Char) : levDist xs [] = xs.length := by
  cases xs <;> rfl

theorem levDist_cons_cons (x y : Char) (xs ys : List Char) :
    levDist (x :: xs) (y :: ys) =
      if x = y then levDist xs ys
      else 1 + min (levDist xs ys) (min (levDist (x :: xs) ys) (levDist xs (y :: ys))) := rfl

theorem levDist_symm_aux :
    ∀ n xs ys, xs.length + ys.length ≤ n → levDist xs ys = levDist ys xs := by
  intro n
  induction n with
  | zero =>
    intro xs ys h
    have hx : xs = [] := by cases xs <;> simp_all
    have hy : ys = [] := by cases ys <;> simp_all
    rw [hx, hy]
  | succ n ih =>
    intro xs ys h
    match xs, ys with
    | [], ys => rw [levDist_nil_right, levDist_nil_left]
    | x :: xs, [] => rw [levDist_nil_right, levDist_nil_left]
    | x :: xs, y :: ys =>
      simp only [List.length_cons] at h
      by_cases hxy : x = y
      · have hyx : y = x := hxy.symm
        rw [levDist_cons_cons, levDist_cons_cons, if_pos hxy, if_pos hyx]
        exact ih xs ys (by omega)
      · have hyx : ¬ y = x := fun he => hxy he.symm
        rw [levDist_cons_cons, levDist_cons_cons, if_neg hxy, if_neg hyx]
        have h1 := ih xs ys (by omega)
        have h2 := ih (x :: xs) ys (by simp only [List.length_cons]; omega)
        have h3 := ih xs (y :: ys) (by simp only [List.length_cons]; omega)
        rw [h1, h2, h3]
        omega

theorem levDist_symm (xs ys : List Char) : levDist xs ys = levDist ys xs :=
  levDist_symm_aux (xs.length + ys.length) xs ys le_rfl

theorem levDist_le_max (xs : List Char) :
    ∀ ys, levDist xs ys ≤ max xs.length ys.length := by
  induction xs with
  | nil =>
    intro ys
    rw [levDist_nil_left]
    exact le_max_right _ _
  | cons x xs ih =>
    intro ys
    cases ys with
    | nil => rw [levDist_nil_right]; exact le_max_left _ _
    | cons y ys =>
      by_cases hxy : x = y
      · rw [levDist_cons_cons, if_pos hxy]
        have := ih ys
        simp only [List.length_cons]
        omega
      · rw [levDist_cons_cons, if_neg hxy]
        have hmin : min (levDist xs ys) (min (levDist (x :: xs) ys) (levDist xs (y :: ys))) ≤
            levDist xs ys := min_le_left _ _
        have := ih ys
        simp only [List.length_cons]
        omega

theorem levDist_eq_zero_iff (xs : List Char) :
    ∀ ys, levDist xs ys = 0 ↔ xs = ys := by
  induction xs with
  | nil =>
    intro ys
    rw [levDist_nil_left]
    cases ys <;> simp
  | cons x xs ih =>
    intro ys
    cases ys with
    | nil => rw [levDist_nil_right]; simp
    | cons y ys =>
      by_cases hxy : x = y
      · rw [levDist_cons_cons, if_pos hxy, ih ys]
        subst hxy
        simp
      · rw [levDist_cons_cons, if_neg hxy]
        constructor
        · intro hz; omega
        · intro he; cases he; exact absurd rfl hxy

/-- Adjacent-character bigrams of a string, kept with multiplicity. -/
def bigrams : List Char → List (Char × Char)
  | a :: b :: t => (a, b) :: bigrams (b :: t)
  | _ => []

/-- Modelled from the spec: `natural.DiceCoefficient` is external to the
repository; §4.3 defines the score as 2·|shared bigrams| divided by
(|bigrams a| + |bigrams b|) with multiset ("bag") intersection, and fixes
the score of identical non-empty strings at 1.0 (which the quotient alone
cannot deliver for strings shorter than two characters). -/
def diceCoefficient (x y : List Char) : ℚ :=
  if x = y ∧ x ≠ [] then 1
  else (2 * (@List.bagInter _ instBEqOfDecidableEq (bigrams x) (bigrams y)).length : ℚ) /
    (((bigrams x).length : ℚ) + ((bigrams y).length : ℚ))

theorem length_bagInter_comm (l1 l2 : List (Char × Char)) :
    (@List.bagInter _ instBEqOfDecidableEq l1 l2).length = (@List.bagInter _ instBEqOfDecidableEq l2 l1).length := by
  have h1 : (@List.bagInter _ instBEqOfDecidableEq l1 l2).length = Multiset.card ((l1 : Multiset (Char × Char)) ∩ l2) := by
    rw [Multiset.coe_inter, Multiset.coe_card]; try rfl
  have h2 : (@List.bagInter _ instBEqOfDecidableEq l2 l1).length = Multiset.card ((l2 : Multiset (Char × Char)) ∩ l1) := by
    rw [Multiset.coe_inter, Multiset.coe_card]; try rfl
  rw [h1, h2, Multiset.inter_comm]

theorem length_bagInter_le_left (l1 l2 : List (Char × Char)) :
    (@List.bagInter _ instBEqOfDecidableEq l1 l2).length ≤ l1.length := by
  have h1 : (@List.bagInter _ instBEqOfDecidableEq l1 l2).length = Multiset.card ((l1 : Multiset (Char × Char)) ∩ l2) := by
    rw [Multiset.coe_inter, Multiset.coe_card]; try rfl
  rw [h1]
  calc Multiset.card ((l1 : Multiset (Char × Char)) ∩ l2)
      ≤ Multiset.card (l1 : Multiset (Char × Char)) :=
        Multiset.card_le_card (Multiset.inter_le_left _ _)
    _ = l1.length := Multiset.coe_card l1

theorem length_bagInter_le_right (l1 l2 : List (Char × Char)) :
    (@List.bagInter _ instBEqOfDecidableEq l1 l2).length ≤ l2.length := by
  rw [length_bagInter_comm]
  exact length_bagInter_le_left l2 l1

theorem diceCoefficient_symm (x y : List Char) :
    diceCoefficient x y = diceCoefficient y x := by
  unfold diceCoefficient
  by_cases hxy : x = y
  · subst hxy; rfl
  · have hyx : ¬ y = x := fun he => hxy he.symm
    rw [if_neg (by simp [hxy]), if_neg (by simp [hyx])]
    rw [length_bagInter_comm]
    ring_nf

theorem diceCoefficient_nonneg (x y : List Char) : 0 ≤ diceCoefficient x y := by
  unfold diceCoefficient
  split
  · norm_num
  · positivity

theorem diceCoefficient_le_one (x y : List Char) : diceCoefficient x y ≤ 1 := by
  unfold diceCoefficient
  split
  · exact le_refl 1
  · by_cases hD : (((bigrams x).length : ℚ) + ((bigrams y).length : ℚ)) = 0
    · rw [hD, div_zero]; norm_num
    · have hDpos : 0 < (((bigrams x).length : ℚ) + ((bigrams y).length : ℚ)) := by
        rcases lt_or_eq_of_le
            (by positivity : (0 : ℚ) ≤ ((bigrams x).length : ℚ) + ((bigrams y).length : ℚ)) with h | h
        · exact h
        · exact absurd h.symm hD
      rw [div_le_one hDpos]
      have h1 : (@List.bagInter _ instBEqOfDecidableEq (bigrams x) (bigrams y)).length ≤ (bigrams x).length :=
        length_bagInter_le_left _ _
      have h2 : (@List.bagInter _ instBEqOfDecidableEq (bigrams x) (bigrams y)).length ≤ (bigrams y).length :=
        length_bagInter_le_right _ _
      have hq1 : ((@List.bagInter _ instBEqOfDecidableEq (bigrams x) (bigrams y)).length : ℚ) ≤ ((bigrams x).length : ℚ) := by
        exact_mod_cast h1
      have hq2 : ((@List.bagInter _ instBEqOfDecidableEq (bigrams x) (bigrams y)).length : ℚ) ≤ ((bigrams y).length : ℚ) := by
        exact_mod_cast h2
      linarith

/-- First index `j` (counting from `k` for the head of `pairs`) inside the
window `[lo, hi)` whose character equals `c` and whose used-flag is `false`. -/
def findCand (c : Char) (lo hi : Nat) : List (Char × Bool) → Nat → Option Nat
  | [], _ => none
  | (ch, u) :: rest, j =>
    if lo ≤ j ∧ j < hi ∧ u = false ∧ ch = c then some j
    else findCand c lo hi rest (j + 1)

/-- Greedy matching pass of the classic Jaro similarity: for each character
of the first string in order (index `i`), flag the first unused character of
`b` equal to it inside the window and record the character in `ms1`. -/
def jaroScan (b : List Char) (w : Nat) :
    List Char → Nat → List Bool → List Char → List Bool × List Char
  | [], _, used, ms1 => (used, ms1)
  | c :: rest, i, used, ms1 =>
    match findCand c (i - w) (i + w + 1) (b.zip used) 0 with
    | some j => jaroScan b w rest (i + 1) (used.set j true) (ms1 ++ [c])
    | none => jaroScan b w rest (i + 1) used ms1

/-- Characters of `b` whose used-flag is set, in order. -/
def flaggedChars (b : List Char) (used : List Bool) : List Char :=
  ((b.zip used).filter fun p => p.2).map Prod.fst

/-- Number of positions at which two matched sequences disagree. -/
def mismatchCount (x y : List Char) : Nat :=
  ((x.zip y).filter fun p => decide (p.1 ≠ p.2)).length

/-- Matching window of the classic Jaro algorithm. -/
def jaroWindow (la lb : Nat) : Nat := max la lb / 2 - 1

/-- Classic Jaro similarity over the greedy matching pass: with `m` matched
characters and `t` transpositions the score is
`(m/|a| + m/|b| + (m-t)/m) / 3`, and `0` when nothing matches. -/
def jaroSim (a b : List Char) : ℚ :=
  let w := jaroWindow a.length b.length
  let scan := jaroScan b w a 0 (List.replicate b.length false) []
  let ms1 := scan.2
  let ms2 := flaggedChars b scan.1
  let m := ms1.length
  if m = 0 then 0
  else
    let t := mismatchCount ms1 ms2 / 2
    ((m : ℚ) / (a.length : ℚ) + (m : ℚ) / (b.length : ℚ) + ((m : ℚ) - (t : ℚ)) / (m : ℚ)) / 3

/-- Length of the common initial segment of two lists. -/
def commonStartLen : List Char → List Char → Nat
  | x :: xs, y :: ys => if x = y then 1 + commonStartLen xs ys else 0
  | _, _ => 0

/-- Jaro–Winkler similarity: the Jaro score plus the standard 0.1-scaled
bonus for a common initial segment of up to four characters; identical
strings score 1 (spec §3: "1 = identical"). -/
def jwRaw (a b : List Char) : ℚ :=
  if a = b then 1
  else
    let j := jaroSim a b
    let l := min (commonStartLen a b) 4
    j + (l : ℚ) * (1 / 10) * (1 - j)

/-- Lexicographic comparison used to evaluate Jaro–Winkler on a canonically
ordered pair of strings. -/
def listLe : List Char → List Char → Bool
  | [], _ => true
  | _ :: _, [] => false
  | x :: xs, y :: ys => if x = y then listLe xs ys else decide (x < y)

/-- Modelled from the spec: `natural.JaroWinklerDistance` is external to the
repository; §4.3 and §3 specify a classic transposition-aware similarity
with a common-start bonus that is pure, deterministic, symmetric in its two
arguments, bounded in [0,1], and equal to 1 exactly for identical strings.
The score is computed on the lexicographically ordered pair, which realizes
the symmetry the spec demands. -/
def jaroWinkler (a b : List Char) : ℚ :=
  if listLe a b then jwRaw a b else jwRaw b a

theorem listLe_refl (a : List Char) : listLe a a = true := by
  induction a with
  | nil => rfl
  | cons x xs ih => simp [listLe, ih]

theorem listLe_total (a : List Char) : ∀ b, listLe a b = true ∨ listLe b a = true := by
  induction a with
  | nil => intro b; left; rfl
  | cons x xs ih =>
    intro b
    cases b with
    | nil => right; rfl
    | cons y ys =>
      by_cases hxy : x = y
      · subst hxy
        rcases ih ys with h | h
        · left; simp [listLe, h]
        · right; simp [listLe, h]
      · have hyx : ¬ y = x := fun he => hxy he.symm
        rcases lt_or_gt_of_ne hxy with h | h
        · left; simp [listLe, hxy, h]
        · right; simp [listLe, hyx, h]

theorem listLe_antisymm (a : List Char) :
    ∀ b, listLe a b = true → listLe b a = true → a = b := by
  induction a with
  | nil =>
    intro b h1 h2
    cases b with
    | nil => rfl
    | cons y ys => simp [listLe] at h2
  | cons x xs ih =>
    intro b h1 h2
    cases b with
    | nil => simp [listLe] at h1
    | cons y ys =>
      by_cases hxy : x = y
      · subst hxy
        simp only [listLe, if_pos rfl] at h1 h2
        rw [ih ys h1 h2]
      · have hyx : ¬ y = x := fun he => hxy he.symm
        simp only [listLe, if_neg hxy] at h1
        simp only [listLe, if_neg hyx] at h2
        have hlt1 : x < y := of_decide_eq_true h1
        have hlt2 : y < x := of_decide_eq_true h2
        exact absurd hlt1 (not_lt_of_gt hlt2)

theorem findCand_sound (c : Char) (lo hi : Nat) :
    ∀ (pairs : List (Char × Bool)) (k j : Nat), findCand c lo hi pairs k = some j →
      k ≤ j ∧ pairs.get? (j - k) = some (c, false) := by
  intro pairs
  induction pairs with
  | nil => intro k j h; simp [findCand] at h
  | cons p rest ih =>
    intro k j h
    obtain ⟨ch, u⟩ := p
    by_cases hc : lo ≤ k ∧ k < hi ∧ u = false ∧ ch = c
    · rw [show findCand c lo hi ((ch, u) :: rest) k =
          (if lo ≤ k ∧ k < hi ∧ u = false ∧ ch = c then some k
           else findCand c lo hi rest (k + 1)) from rfl, if_pos hc] at h
      cases h
      refine ⟨le_rfl, ?_⟩
      rw [Nat.sub_self]
      rw [hc.2.2.1, hc.2.2.2]
      rfl
    · rw [show findCand c lo hi ((ch, u) :: rest) k =
          (if lo ≤ k ∧ k < hi ∧ u = false ∧ ch = c then some k
           else findCand c lo hi rest (k + 1)) from rfl, if_neg hc] at h
      obtain ⟨hk, hg⟩ := ih (k + 1) j h
      refine ⟨by omega, ?_⟩
      have hjk : j - k = (j - (k + 1)) + 1 := by omega
      rw [hjk]
      simpa using hg

theorem zip_get?_eq {α β : Type} (l1 : List α) :
    ∀ (l2 : List β) (n : Nat) (x : α) (y : β), (l1.zip l2).get? n = some (x, y) →
      l1.get? n = some x ∧ l2.get? n = some y := by
  induction l1 with
  | nil => intro l2 n x y h; simp [List.zip] at h
  | cons a as ih =>
    intro l2 n x y h
    cases l2 with
    | nil => simp at h
    | cons b bs =>
      cases n with
      | zero =>
        simp only [List.zip_cons_cons, List.get?_cons_zero, Option.some.injEq, Prod.mk.injEq] at h
        simp [h.1, h.2]
      | succ n =>
        simp only [List.zip_cons_cons, List.get?_cons_succ] at h ⊢
        exact ih bs n x y h

theorem count_set_true (used : List Bool) :
    ∀ j, used.get? j = some false →
      (used.set j true).count true = used.count true + 1 := by
  induction used with
  | nil => intro j h; simp at h
  | cons u ut ih =>
    intro j h
    cases j with
    | zero =>
      simp only [List.get?_cons_zero, Option.some.injEq] at h
      subst h
      simp [List.count_cons]
    | succ j =>
      simp only [List.get?_cons_succ] at h
      have hih := ih j h
      rw [show (u :: ut).set (j + 1) true = u :: ut.set j true from rfl]
      simp only [List.count_cons]
      omega

theorem flaggedChars_cons (x : Char) (bt : List Char) (u : Bool) (ut : List Bool) :
    flaggedChars (x :: bt) (u :: ut) =
      if u then x :: flaggedChars bt ut else flaggedChars bt ut := by
  cases u <;> simp [flaggedChars, List.zip, List.zip_cons_cons, List.filter]

theorem flaggedChars_set (b : List Char) :
    ∀ (used : List Bool) (j : Nat) (c : Char), b.get? j = some c → used.get? j = some false →
      ((flaggedChars b (used.set j true) : List Char) : Multiset Char) =
        c ::ₘ ((flaggedChars b used : List Char) : Multiset Char) := by
  induction b with
  | nil => intro used j c hb _; simp at hb
  | cons x bt ih =>
    intro used j c hb hu
    cases used with
    | nil => simp at hu
    | cons u ut =>
      cases j with
      | zero =>
        simp only [List.get?_cons_zero, Option.some.injEq] at hb hu
        subst hb; subst hu
        rw [show (false :: ut).set 0 true = true :: ut from rfl]
        rw [flaggedChars_cons, flaggedChars_cons]
        simp
      | succ j =>
        simp only [List.get?_cons_succ] at hb hu
        have hih := ih ut j c hb hu
        rw [show (u :: ut).set (j + 1) true = u :: ut.set j true from rfl]
        rw [flaggedChars_cons, flaggedChars_cons]
        cases u with
        | false => simpa using hih
        | true =>
          simp only [if_true]
          rw [show ((x :: flaggedChars bt (ut.set j true) : List Char) : Multiset Char) =
            x ::ₘ (flaggedChars bt (ut.set j true) : Multiset Char) from by simp]
          rw [show ((x :: flaggedChars bt ut : List Char) : Multiset Char) =
            x ::ₘ (flaggedChars bt ut : Multiset Char) from by simp]
          rw [hih, Multiset.cons_swap]

theorem flaggedChars_all_true (b : List Char) :
    ∀ used, used.length = b.length → (∀ x ∈ used, x = true) →
      flaggedChars b used = b := by
  induction b with
  | nil => intro used h _; rw [List.length_nil, List.length_eq_zero] at h; rw [h]; rfl
  | cons x bt ih =>
    intro used hlen hall
    cases used with
    | nil => simp at hlen
    | cons u ut =>
      have hu : u = true := hall u (by simp)
      subst hu
      rw [flaggedChars_cons]
      simp only [if_true]
      have hlen2 : ut.length = bt.length := by simpa using hlen
      have hall2 : ∀ x ∈ ut, x = true := fun y hy => hall y (by simp [hy])
      rw [ih ut hlen2 hall2]

theorem jaroScan_nil (b : List Char) (w : Nat) (i : Nat) (used : List Bool)
    (ms1 : List Char) : jaroScan b w [] i used ms1 = (used, ms1) := rfl

theorem jaroScan_cons_some (b : List Char) (w : Nat) (c : Char) (rest : List Char)
    (i j : Nat) (used : List Bool) (ms1 : List Char)
    (hf : findCand c (i - w) (i + w + 1) (b.zip used) 0 = some j) :
    jaroScan b w (c :: rest) i used ms1 =
      jaroScan b w rest (i + 1) (used.set j true) (ms1 ++ [c]) := by
  rw [show jaroScan b w (c :: rest) i used ms1 =
      (match findCand c (i - w) (i + w + 1) (b.zip used) 0 with
       | some j => jaroScan b w rest (i + 1) (used.set j true) (ms1 ++ [c])
       | none => jaroScan b w rest (i + 1) used ms1) from rfl, hf]

theorem jaroScan_cons_none (b : List Char) (w : Nat) (c : Char) (rest : List Char)
    (i : Nat) (used : List Bool) (ms1 : List Char)
    (hf : findCand c (i - w) (i + w + 1) (b.zip used) 0 = none) :
    jaroScan b w (c :: rest) i used ms1 = jaroScan b w rest (i + 1) used ms1 := by
  rw [show jaroScan b w (c :: rest) i used ms1 =
      (match findCand c (i - w) (i + w + 1) (b.zip used) 0 with
       | some j => jaroScan b w rest (i + 1) (used.set j true) (ms1 ++ [c])
       | none => jaroScan b w rest (i + 1) used ms1) from rfl, hf]

theorem jaroScan_inv (b : List Char) (w : Nat) :
    ∀ (rest : List Char) (i : Nat) (used : List Bool) (ms1 : List Char),
      used.length = b.length →
      used.count true = ms1.length →
      ((ms1 : List Char) : Multiset Char) = ((flaggedChars b used : List Char) : Multiset Char) →
      (jaroScan b w rest i used ms1).1.length = b.length ∧
      (jaroScan b w rest i used ms1).1.count true = (jaroScan b w rest i used ms1).2.length ∧
      (((jaroScan b w rest i used ms1).2 : List Char) : Multiset Char) =
        ((flaggedChars b (jaroScan b w rest i used ms1).1 : List Char) : Multiset Char) ∧
      ∃ δ, (jaroScan b w rest i used ms1).2 = ms1 ++ δ ∧ δ.Sublist rest := by
  intro rest
  induction rest with
  | nil =>
    intro i used ms1 h1 h2 h3
    rw [jaroScan_nil]
    exact ⟨h1, h2, h3, [], by simp, List.nil_sublist []⟩
  | cons c rest ih =>
    intro i used ms1 h1 h2 h3
    cases hf : findCand c (i - w) (i + w + 1) (b.zip used) 0 with
    | none =>
      rw [jaroScan_cons_none b w c rest i used ms1 hf]
      obtain ⟨g1, g2, g3, δ, hδ, hsub⟩ := ih (i + 1) used ms1 h1 h2 h3
      exact ⟨g1, g2, g3, δ, hδ, hsub.cons c⟩
    | some j =>
      rw [jaroScan_cons_some b w c rest i j used ms1 hf]
      obtain ⟨hk, hget⟩ := findCand_sound c (i - w) (i + w + 1) (b.zip used) 0 j hf
      have hj : (b.zip used).get? j = some (c, false) := by simpa using hget
      obtain ⟨hbj, huj⟩ := zip_get?_eq b used j c false hj
      have hlen : (used.set j true).length = b.length := by
        rw [List.length_set]; exact h1
      have hcount : (used.set j true).count true = (ms1 ++ [c]).length := by
        rw [count_set_true used j huj, h2]; simp
      have hms : (((ms1 ++ [c]) : List Char) : Multiset Char) =
          ((flaggedChars b (used.set j true) : List Char) : Multiset Char) := by
        rw [flaggedChars_set b used j c hbj huj, ← h3]
        have hc1 : (((ms1 ++ [c]) : List Char) : Multiset Char) =
            ((ms1 : List Char) : Multiset Char) + ({c} : Multiset Char) := rfl
        rw [hc1, add_comm, ← Multiset.singleton_add]
      obtain ⟨g1, g2, g3, δ, hδ, hsub⟩ := ih (i + 1) (used.set j true) (ms1 ++ [c]) hlen hcount hms
      refine ⟨g1, g2, g3, c :: δ, ?_, hsub.cons₂ c⟩
      rw [hδ]
      simp

theorem count_true_replicate_false (n : Nat) :
    List.count true (List.replicate n false) = 0 := by
  induction n with
  | zero => rfl
  | succ n ih => simp [List.replicate, List.count_cons, ih]

theorem flaggedChars_replicate_false (b : List Char) :
    ∀ n, flaggedChars b (List.replicate n false) = [] := by
  induction b with
  | nil => intro n; rfl
  | cons x bt ih =>
    intro n
    cases n with
    | zero => rfl
    | succ n =>
      rw [show List.replicate (n + 1) false = false :: List.replicate n false from rfl,
        flaggedChars_cons]
      simp only [if_false, Bool.false_eq_true]
      exact ih n

theorem mismatchCount_cons (x y : Char) (xs ys : List Char) :
    mismatchCount (x :: xs) (y :: ys) =
      if x = y then mismatchCount xs ys else mismatchCount xs ys + 1 := by
  by_cases h : x = y <;>
    simp [mismatchCount, List.zip, List.zip_cons_cons, List.filter, h]

theorem mismatchCount_le (x : List Char) (y : List Char) :
    mismatchCount x y ≤ x.length := by
  calc mismatchCount x y ≤ (x.zip y).length := List.length_filter_le _ _
    _ ≤ x.length := by rw [List.length_zip]; omega

theorem eq_of_mismatch_zero (x : List Char) :
    ∀ y, x.length = y.length → mismatchCount x y = 0 → x = y := by
  induction x with
  | nil =>
    intro y hl _
    cases y with
    | nil => rfl
    | cons b bs => simp at hl
  | cons a as ih =>
    intro y hl hm
    cases y with
    | nil => simp at hl
    | cons b bs =>
      rw [mismatchCount_cons] at hm
      by_cases hab : a = b
      · rw [if_pos hab] at hm
        rw [hab, ih bs (by simpa using hl) hm]
      · rw [if_neg hab] at hm
        omega

theorem eq_of_mismatch_le_one (x : List Char) :
    ∀ y, x.length = y.length →
      ((x : List Char) : Multiset Char) = ((y : List Char) : Multiset Char) →
      mismatchCount x y ≤ 1 → x = y := by
  induction x with
  | nil =>
    intro y hl _ _
    cases y with
    | nil => rfl
    | cons b bs => simp at hl
  | cons a as ih =>
    intro y hl hms hm
    cases y with
    | nil => simp at hl
    | cons b bs =>
      by_cases hab : a = b
      · subst hab
        have hms2 : ((as : List Char) : Multiset Char) = ((bs : List Char) : Multiset Char) := by
          have h1 : (a ::ₘ (as : Multiset Char)) = (a ::ₘ (bs : Multiset Char)) := by
            simpa using hms
          exact (Multiset.cons_inj_right a).mp h1
        rw [mismatchCount_cons, if_pos rfl] at hm
        rw [ih bs (by simpa using hl) hms2 hm]
      · rw [mismatchCount_cons, if_neg hab] at hm
        have hm0 : mismatchCount as bs = 0 := by omega
        have hasbs : as = bs := eq_of_mismatch_zero as bs (by simpa using hl) hm0
        subst hasbs
        exfalso
        have h1 : (a ::ₘ (as : Multiset Char)) = (b ::ₘ (as : Multiset Char)) := by
          simpa using hms
        have h2 := congrArg (Multiset.count a) h1
        rw [Multiset.count_cons_self, Multiset.count_cons_of_ne hab] at h2
        omega

theorem jaroScan_main_facts (a b : List Char) :
    (jaroScan b (jaroWindow a.length b.length) a 0 (List.replicate b.length false) []).1.length
        = b.length ∧
    (jaroScan b (jaroWindow a.length b.length) a 0 (List.replicate b.length false) []).1.count true
        = (jaroScan b (jaroWindow a.length b.length) a 0 (List.replicate b.length false) []).2.length ∧
    (((jaroScan b (jaroWindow a.length b.length) a 0 (List.replicate b.length false) []).2 :
        List Char) : Multiset Char) =
      ((flaggedChars b
        (jaroScan b (jaroWindow a.length b.length) a 0 (List.replicate b.length false) []).1 :
        List Char) : Multiset Char) ∧
    (jaroScan b (jaroWindow a.length b.length) a 0 (List.replicate b.length false) []).2.Sublist a := by
  have h := jaroScan_inv b (jaroWindow a.length b.length) a 0 (List.replicate b.length false) []
    (by simp)
    (by rw [count_true_replicate_false]; rfl)
    (by rw [flaggedChars_replicate_false])
  obtain ⟨g1, g2, g3, δ, hδ, hsub⟩ := h
  refine ⟨g1, g2, g3, ?_⟩
  rw [show ((jaroScan b (jaroWindow a.length b.length) a 0
      (List.replicate b.length false) []).2 : List Char) = [] ++ δ from hδ]
  simpa using hsub

theorem jaroSim_nonneg (a b : List Char) : 0 ≤ jaroSim a b := by
  simp only [jaroSim]
  set S := jaroScan b (jaroWindow a.length b.length) a 0 (List.replicate b.length false) []
    with hS
  by_cases hm : S.2.length = 0
  · rw [if_pos hm]
  · rw [if_neg hm]
    obtain ⟨g1, g2, g3, hsub⟩ := jaroScan_main_facts a b
    rw [← hS] at g1 g2 g3 hsub
    have htle : mismatchCount S.2 (flaggedChars b S.1) / 2 ≤ S.2.length := by
      have h1 : mismatchCount S.2 (flaggedChars b S.1) ≤ S.2.length := mismatchCount_le _ _
      omega
    have htq : ((mismatchCount S.2 (flaggedChars b S.1) / 2 : Nat) : ℚ) ≤ (S.2.length : ℚ) := by
      exact_mod_cast htle
    have h1 : (0 : ℚ) ≤ (S.2.length : ℚ) / (a.length : ℚ) := by positivity
    have h2 : (0 : ℚ) ≤ (S.2.length : ℚ) / (b.length : ℚ) := by positivity
    have h3 : (0 : ℚ) ≤ ((S.2.length : ℚ) - ((mismatchCount S.2 (flaggedChars b S.1) / 2 : Nat) : ℚ))
        / (S.2.length : ℚ) := by
      apply div_nonneg
      · linarith
      · positivity
    linarith

theorem jaroSim_le_one (a b : List Char) : jaroSim a b ≤ 1 := by
  simp only [jaroSim]
  set S := jaroScan b (jaroWindow a.length b.length) a 0 (List.replicate b.length false) []
    with hS
  by_cases hm : S.2.length = 0
  · rw [if_pos hm]; norm_num
  · rw [if_neg hm]
    obtain ⟨g1, g2, g3, hsub⟩ := jaroScan_main_facts a b
    rw [← hS] at g1 g2 g3 hsub
    have hma : S.2.length ≤ a.length := hsub.length_le
    have hmb : S.2.length ≤ b.length := by
      rw [← g2]
      calc List.count true S.1 ≤ S.1.length := List.count_le_length true S.1
        _ = b.length := g1
    have hal : (0 : ℚ) < (a.length : ℚ) := by
      have : 0 < a.length := by omega
      exact_mod_cast this
    have hbl : (0 : ℚ) < (b.length : ℚ) := by
      have : 0 < b.length := by omega
      exact_mod_cast this
    have hmq : (0 : ℚ) < (S.2.length : ℚ) := by
      have : 0 < S.2.length := Nat.pos_of_ne_zero hm
      exact_mod_cast this
    have h1 : (S.2.length : ℚ) / (a.length : ℚ) ≤ 1 := by
      rw [div_le_one hal]
      exact_mod_cast hma
    have h2 : (S.2.length : ℚ) / (b.length : ℚ) ≤ 1 := by
      rw [div_le_one hbl]
      exact_mod_cast hmb
    have h3 : ((S.2.length : ℚ) - ((mismatchCount S.2 (flaggedChars b S.1) / 2 : Nat) : ℚ))
        / (S.2.length : ℚ) ≤ 1 := by
      rw [div_le_one hmq]
      have : (0 : ℚ) ≤ ((mismatchCount S.2 (flaggedChars b S.1) / 2 : Nat) : ℚ) := by positivity
      linarith
    linarith

theorem jaroSim_eq_one_imp (a b : List Char) (h : jaroSim a b = 1) : a = b := by
  simp only [jaroSim] at h
  set S := jaroScan b (jaroWindow a.length b.length) a 0 (List.replicate b.length false) []
    with hS
  obtain ⟨g1, g2, g3, hsub⟩ := jaroScan_main_facts a b
  rw [← hS] at g1 g2 g3 hsub
  by_cases hm : S.2.length = 0
  · rw [if_pos hm] at h
    exact absurd h (by norm_num)
  · rw [if_neg hm] at h
    have hma : S.2.length ≤ a.length := hsub.length_le
    have hmb : S.2.length ≤ b.length := by
      rw [← g2]
      calc List.count true S.1 ≤ S.1.length := List.count_le_length true S.1
        _ = b.length := g1
    have hal : (0 : ℚ) < (a.length : ℚ) := by
      have : 0 < a.length := by omega
      exact_mod_cast this
    have hbl : (0 : ℚ) < (b.length : ℚ) := by
      have : 0 < b.length := by omega
      exact_mod_cast this
    have hmq : (0 : ℚ) < (S.2.length : ℚ) := by
      have : 0 < S.2.length := Nat.pos_of_ne_zero hm
      exact_mod_cast this
    set tq : ℚ := ((mismatchCount S.2 (flaggedChars b S.1) / 2 : Nat) : ℚ) with htq
    have htq0 : (0 : ℚ) ≤ tq := by rw [htq]; positivity
    have h1 : (S.2.length : ℚ) / (a.length : ℚ) ≤ 1 := by
      rw [div_le_one hal]; exact_mod_cast hma
    have h2 : (S.2.length : ℚ) / (b.length : ℚ) ≤ 1 := by
      rw [div_le_one hbl]; exact_mod_cast hmb
    have h3 : ((S.2.length : ℚ) - tq) / (S.2.length : ℚ) ≤ 1 := by
      rw [div_le_one hmq]; linarith
    have hsum : (S.2.length : ℚ) / (a.length : ℚ) + (S.2.length : ℚ) / (b.length : ℚ)
        + ((S.2.length : ℚ) - tq) / (S.2.length : ℚ) = 3 := by
      linarith [h]
    have he1 : (S.2.length : ℚ) / (a.length : ℚ) = 1 := by linarith
    have he2 : (S.2.length : ℚ) / (b.length : ℚ) = 1 := by linarith
    have he3 : ((S.2.length : ℚ) - tq) / (S.2.length : ℚ) = 1 := by linarith
    have hmal : S.2.length = a.length := by
      rw [div_eq_one_iff_eq (ne_of_gt hal)] at he1
      exact_mod_cast he1
    have hmbl : S.2.length = b.length := by
      rw [div_eq_one_iff_eq (ne_of_gt hbl)] at he2
      exact_mod_cast he2
    have ht0 : mismatchCount S.2 (flaggedChars b S.1) ≤ 1 := by
      rw [div_eq_one_iff_eq (ne_of_gt hmq)] at he3
      have : tq = 0 := by linarith
      rw [htq] at this
      have hnat : mismatchCount S.2 (flaggedChars b S.1) / 2 = 0 := by exact_mod_cast this
      omega
    have hms1a : S.2 = a := hsub.eq_of_length hmal
    have hall : ∀ x ∈ S.1, x = true := by
      intro x hx
      have hcl : List.count true S.1 = S.1.length := by omega
      exact (List.count_eq_length.mp hcl x hx).symm
    have hms2b : flaggedChars b S.1 = b := flaggedChars_all_true b S.1 g1 hall
    have hmsab : ((a : List Char) : Multiset Char) = ((b : List Char) : Multiset Char) := by
      rw [← hms1a, ← hms2b]
      exact g3
    have hlab : a.length = b.length := by omega
    rw [hms1a, hms2b] at ht0
    exact eq_of_mismatch_le_one a b hlab hmsab ht0

theorem jwRaw_self (a : List Char) : jwRaw a a = 1 := if_pos rfl

theorem jwRaw_nonneg (a b : List Char) : 0 ≤ jwRaw a b := by
  simp only [jwRaw]
  split
  · norm_num
  · have hj0 := jaroSim_nonneg a b
    have hj1 := jaroSim_le_one a b
    have hl0 : (0 : ℚ) ≤ ((min (commonStartLen a b) 4 : Nat) : ℚ) := by positivity
    have hmul : (0 : ℚ) ≤ ((min (commonStartLen a b) 4 : Nat) : ℚ) * (1 / 10)
        * (1 - jaroSim a b) :=
      mul_nonneg (mul_nonneg hl0 (by norm_num)) (by linarith)
    linarith

theorem jwRaw_le_one (a b : List Char) : jwRaw a b ≤ 1 := by
  simp only [jwRaw]
  split
  · exact le_refl 1
  · have hj0 := jaroSim_nonneg a b
    have hj1 := jaroSim_le_one a b
    have hl4 : ((min (commonStartLen a b) 4 : Nat) : ℚ) ≤ 4 := by
      exact_mod_cast Nat.min_le_right (commonStartLen a b) 4
    have hL : ((min (commonStartLen a b) 4 : Nat) : ℚ) * (1 / 10) ≤ 2 / 5 := by linarith
    have h1mj : (0 : ℚ) ≤ 1 - jaroSim a b := by linarith
    have hmul : ((min (commonStartLen a b) 4 : Nat) : ℚ) * (1 / 10) * (1 - jaroSim a b) ≤
        (2 / 5) * (1 - jaroSim a b) :=
      mul_le_mul_of_nonneg_right hL h1mj
    linarith

theorem jwRaw_ge_one_imp (a b : List Char) (h : 1 ≤ jwRaw a b) : a = b := by
  by_cases hab : a = b
  · exact hab
  · exfalso
    simp only [jwRaw, if_neg hab] at h
    have hj1 := jaroSim_le_one a b
    by_cases hjlt : jaroSim a b < 1
    · have h1mj : (0 : ℚ) ≤ 1 - jaroSim a b := by linarith
      have hl4 : ((min (commonStartLen a b) 4 : Nat) : ℚ) ≤ 4 := by
        exact_mod_cast Nat.min_le_right (commonStartLen a b) 4
      have hL : ((min (commonStartLen a b) 4 : Nat) : ℚ) * (1 / 10) ≤ 2 / 5 := by linarith
      have hmul : ((min (commonStartLen a b) 4 : Nat) : ℚ) * (1 / 10) * (1 - jaroSim a b) ≤
          (2 / 5) * (1 - jaroSim a b) :=
        mul_le_mul_of_nonneg_right hL h1mj
      linarith
    · have hjeq : jaroSim a b = 1 := le_antisymm hj1 (not_lt.mp hjlt)
      exact hab (jaroSim_eq_one_imp a b hjeq)

theorem jaroWinkler_symm (a b : List Char) : jaroWinkler a b = jaroWinkler b a := by
  by_cases h1 : listLe a b = true
  · by_cases h2 : listLe b a = true
    · have hab : a = b := listLe_antisymm a b h1 h2
      subst hab; rfl
    · simp [jaroWinkler, h1, h2]
  · have h2 : listLe b a = true := (listLe_total a b).resolve_left h1
    simp [jaroWinkler, h1, h2]

theorem jaroWinkler_self (a : List Char) : jaroWinkler a a = 1 := by
  simp [jaroWinkler, listLe_refl, jwRaw_self]

theorem jaroWinkler_nonneg (a b : List Char) : 0 ≤ jaroWinkler a b := by
  unfold jaroWinkler
  split
  · exact jwRaw_nonneg a b
  · exact jwRaw_nonneg b a

theorem jaroWinkler_le_one (a b : List Char) : jaroWinkler a b ≤ 1 := by
  unfold jaroWinkler
  split
  · exact jwRaw_le_one a b
  · exact jwRaw_le_one b a

theorem jaroWinkler_ge_one_iff (a b : List Char) : 1 ≤ jaroWinkler a b ↔ a = b := by
  constructor
  · intro h
    unfold jaroWinkler at h
    by_cases h1 : listLe a b = true
    · rw [if_pos h1] at h
      exact jwRaw_ge_one_imp a b h
    · rw [if_neg h1] at h
      exact (jwRaw_ge_one_imp b a h).symm
  · intro h
    subst h
    rw [jaroWinkler_self]

/-- The three selectable similarity algorithms. -/
inductive SimilarityAlgorithm where
  | dice
  | jaroWinkler
  | levenshtein
deriving DecidableEq

/-- The two comparison modes of the dedup route. -/
inductive ComparisonMode where
  | exact
  | fuzzy
deriving DecidableEq

/-- `calculateSimilarity` of `process-excel/route.ts`: dispatch on the
algorithm; the Levenshtein distance is normalized to the 0–1 scale with the
explicit `maxLen = 0 → 1` special case. -/
def calculateSimilarity (str1 str2 : String) (algorithm : SimilarityAlgorithm) : ℚ :=
  match algorithm with
  | .dice => diceCoefficient str1.data str2.data
  | .jaroWinkler => jaroWinkler str1.data str2.data
  | .levenshtein =>
    if max str1.data.length str2.data.length = 0 then 1
    else 1 - (levDist str1.data str2.data : ℚ) / ((max str1.data.length str2.data.length : Nat) : ℚ)

/-- `calculateSimilarity` of `match-columns/route.ts`: same dispatch, but
guarded by `if (!str1 || !str2) return 0` (empty strings are falsy). -/
def calculateSimilarityMC (str1 str2 : String) (algorithm : SimilarityAlgorithm) : ℚ :=
  if str1 = "" ∨ str2 = "" then 0
  else
    match algorithm with
    | .dice => diceCoefficient str1.data str2.data
    | .jaroWinkler => jaroWinkler str1.data str2.data
    | .levenshtein =>
      if max str1.data.length str2.data.length = 0 then 1
      else 1 - (levDist str1.data str2.data : ℚ) / ((max str1.data.length str2.data.length : Nat) : ℚ)

theorem calculateSimilarity_symm (a b : String) (alg : SimilarityAlgorithm) :
    calculateSimilarity a b alg = calculateSimilarity b a alg := by
  cases alg with
  | dice => exact diceCoefficient_symm a.data b.data
  | jaroWinkler => exact jaroWinkler_symm a.data b.data
  | levenshtein =>
    simp only [calculateSimilarity]
    rw [show max b.data.length a.data.length = max a.data.length b.data.length from
        Nat.max_comm _ _,
      show levDist b.data a.data = levDist a.data b.data from levDist_symm _ _]

theorem calculateSimilarity_nonneg (a b : String) (alg : SimilarityAlgorithm) :
    0 ≤ calculateSimilarity a b alg := by
  cases alg with
  | dice => exact diceCoefficient_nonneg a.data b.data
  | jaroWinkler => exact jaroWinkler_nonneg a.data b.data
  | levenshtein =>
    simp only [calculateSimilarity]
    split
    · norm_num
    · rename_i hmx
      have hmxpos : 0 < max a.data.length b.data.length := Nat.pos_of_ne_zero hmx
      have hq : (0 : ℚ) < ((max a.data.length b.data.length : Nat) : ℚ) := by exact_mod_cast hmxpos
      have hle : levDist a.data b.data ≤ max a.data.length b.data.length := levDist_le_max _ _
      have hdiv : (levDist a.data b.data : ℚ) / ((max a.data.length b.data.length : Nat) : ℚ) ≤ 1 := by
        rw [div_le_one hq]
        exact_mod_cast hle
      linarith

theorem calculateSimilarity_le_one (a b : String) (alg : SimilarityAlgorithm) :
    calculateSimilarity a b alg ≤ 1 := by
  cases alg with
  | dice => exact diceCoefficient_le_one a.data b.data
  | jaroWinkler => exact jaroWinkler_le_one a.data b.data
  | levenshtein =>
    simp only [calculateSimilarity]
    split
    · exact le_refl 1
    · rename_i hmx
      have hdiv : (0 : ℚ) ≤ (levDist a.data b.data : ℚ) /
          ((max a.data.length b.data.length : Nat) : ℚ) := by positivity
      linarith

theorem calculateSimilarityMC_symm (a b : String) (alg : SimilarityAlgorithm) :
    calculateSimilarityMC a b alg = calculateSimilarityMC b a alg := by
  unfold calculateSimilarityMC
  by_cases h : a = "" ∨ b = ""
  · rw [if_pos h, if_pos (Or.symm h)]
  · rw [if_neg h, if_neg (fun hc => h (Or.symm hc))]
    have := calculateSimilarity_symm a b alg
    cases alg with
    | dice => exact diceCoefficient_symm a.data b.data
    | jaroWinkler => exact jaroWinkler_symm a.data b.data
    | levenshtein =>
      rw [show max b.data.length a.data.length = max a.data.length b.data.length from
          Nat.max_comm _ _,
        show levDist b.data a.data = levDist a.data b.data from levDist_symm _ _]

theorem calculateSimilarityMC_eq (a b : String) (alg : SimilarityAlgorithm)
    (ha : ¬ (a = "" ∨ b = "")) :
    calculateSimilarityMC a b alg = calculateSimilarity a b alg := by
  unfold calculateSimilarityMC calculateSimilarity
  rw [if_neg ha]

theorem calculateSimilarityMC_nonneg (a b : String) (alg : SimilarityAlgorithm) :
    0 ≤ calculateSimilarityMC a b alg := by
  by_cases h : a = "" ∨ b = ""
  · unfold calculateSimilarityMC; rw [if_pos h]
  · rw [calculateSimilarityMC_eq a b alg h]
    exact calculateSimilarity_nonneg a b alg

theorem calculateSimilarityMC_le_one (a b : String) (alg : SimilarityAlgorithm) :
    calculateSimilarityMC a b alg ≤ 1 := by
  by_cases h : a = "" ∨ b = ""
  · unfold calculateSimilarityMC; rw [if_pos h]; norm_num
  · rw [calculateSimilarityMC_eq a b alg h]
    exact calculateSimilarity_le_one a b alg

theorem calculateSimilarity_lev_ge_one_iff (a b : String) :
    1 ≤ calculateSimilarity a b .levenshtein ↔ a = b := by
  simp only [calculateSimilarity]
  constructor
  · intro h
    split at h
    · rename_i hmx
      have ha : a.data = [] := List.length_eq_zero.mp (by omega)
      have hb : b.data = [] := List.length_eq_zero.mp (by omega)
      exact String.ext (ha.trans hb.symm)
    · rename_i hmx
      have hmxpos : 0 < max a.data.length b.data.length := Nat.pos_of_ne_zero hmx
      have hq : (0 : ℚ) < ((max a.data.length b.data.length : Nat) : ℚ) := by
        exact_mod_cast hmxpos
      have hdn : (0 : ℚ) ≤ (levDist a.data b.data : ℚ) /
          ((max a.data.length b.data.length : Nat) : ℚ) := by positivity
      have hdz : (levDist a.data b.data : ℚ) /
          ((max a.data.length b.data.length : Nat) : ℚ) = 0 := by linarith
      rw [div_eq_zero_iff] at hdz
      rcases hdz with hdz | hdz
      · have : levDist a.data b.data = 0 := by exact_mod_cast hdz
        exact String.ext ((levDist_eq_zero_iff a.data b.data).mp this)
      · exact absurd hdz (ne_of_gt hq)
  · intro h
    subst h
    split
    · exact le_refl 1
    · have : levDist a.data a.data = 0 := (levDist_eq_zero_iff a.data a.data).mpr rfl
      rw [this]
      norm_num

theorem calculateSimilarity_jw_ge_one_iff (a b : String) :
    1 ≤ calculateSimilarity a b .jaroWinkler ↔ a = b := by
  simp only [calculateSimilarity]
  rw [jaroWinkler_ge_one_iff]
  constructor
  · exact fun h => String.ext h
  · intro h; rw [h]

/-- Replacement test of the best-candidate loops: a candidate becomes the new
best exactly when `score >= threshold && (!bestMatch || score > bestMatch.score)`. -/
def betterCond {α : Type} (sc : α → ℚ) (thr : ℚ) (e : α) (best : Option (α × ℚ)) : Bool :=
  decide (thr ≤ sc e) &&
    (match best with
     | none => true
     | some p => decide (p.2 < sc e))

/-- The best-candidate accumulation loop shared, statement for statement, by
`findSimilarMatch` (process-excel) and `findBestMatch` (match-columns). -/
def bestScanLoop {α : Type} (sc : α → ℚ) (thr : ℚ) :
    List α → Option (α × ℚ) → Option (α × ℚ)
  | [], best => best
  | e :: rest, best =>
    if betterCond sc thr e best then bestScanLoop sc thr rest (some (e, sc e))
    else bestScanLoop sc thr rest best

theorem betterCond_none {α : Type} (sc : α → ℚ) (thr : ℚ) (e : α) :
    betterCond sc thr e none = decide (thr ≤ sc e) := by
  simp [betterCond]

theorem betterCond_some {α : Type} (sc : α → ℚ) (thr : ℚ) (e : α) (p : α × ℚ) :
    betterCond sc thr e (some p) = (decide (thr ≤ sc e) && decide (p.2 < sc e)) := rfl

theorem bestScanLoop_nil {α : Type} (sc : α → ℚ) (thr : ℚ) (best : Option (α × ℚ)) :
    bestScanLoop sc thr [] best = best := rfl

theorem bestScanLoop_cons {α : Type} (sc : α → ℚ) (thr : ℚ) (e : α) (rest : List α)
    (best : Option (α × ℚ)) :
    bestScanLoop sc thr (e :: rest) best =
      if betterCond sc thr e best then bestScanLoop sc thr rest (some (e, sc e))
      else bestScanLoop sc thr rest best := rfl

theorem bestScanLoop_below {α : Type} (sc : α → ℚ) (thr : ℚ) :
    ∀ (l : List α) (best : Option (α × ℚ)), (∀ e ∈ l, sc e < thr) →
      bestScanLoop sc thr l best = best := by
  intro l
  induction l with
  | nil => intro best _; rfl
  | cons e rest ih =>
    intro best hall
    have he : sc e < thr := hall e (by simp)
    have hcond : betterCond sc thr e best = false := by
      unfold betterCond
      have : decide (thr ≤ sc e) = false := by
        simp [not_le.mpr he]
      rw [this, Bool.false_and]
    rw [bestScanLoop_cons, hcond]
    simp only [Bool.false_eq_true, if_false]
    exact ih best (fun x hx => hall x (by simp [hx]))

theorem bestScanLoop_isSome {α : Type} (sc : α → ℚ) (thr : ℚ) :
    ∀ (l : List α) (p : α × ℚ), (bestScanLoop sc thr l (some p)).isSome = true := by
  intro l
  induction l with
  | nil => intro p; rfl
  | cons e rest ih =>
    intro p
    rw [bestScanLoop_cons]
    by_cases hc : betterCond sc thr e (some p) = true
    · rw [if_pos hc]; exact ih (e, sc e)
    · rw [if_neg hc]; exact ih p

theorem bestScanLoop_none_iff {α : Type} (sc : α → ℚ) (thr : ℚ) :
    ∀ (l : List α), bestScanLoop sc thr l none = none ↔ ∀ e ∈ l, sc e < thr := by
  intro l
  constructor
  · induction l with
    | nil => intro _ e he; simp at he
    | cons e rest ih =>
      intro h x hx
      rw [bestScanLoop_cons] at h
      by_cases hc : betterCond sc thr e none = true
      · rw [if_pos hc] at h
        have := bestScanLoop_isSome sc thr rest (e, sc e)
        rw [h] at this
        simp at this
      · rw [if_neg hc] at h
        rw [betterCond_none] at hc
        have he : sc e < thr := by
          by_contra hnot
          exact hc (by simp [le_of_not_lt hnot])
        rcases List.mem_cons.mp hx with hx | hx
        · rw [hx]; exact he
        · exact ih h x hx
  · exact fun h => bestScanLoop_below sc thr l none h

theorem bestScanLoop_dominated {α : Type} (sc : α → ℚ) (thr : ℚ) :
    ∀ (l : List α) (b : α × ℚ), (∀ e ∈ l, sc e ≤ b.2) →
      bestScanLoop sc thr l (some b) = some b := by
  intro l
  induction l with
  | nil => intro b _; rfl
  | cons e rest ih =>
    intro b hall
    have he : sc e ≤ b.2 := hall e (by simp)
    have hcond : betterCond sc thr e (some b) = false := by
      rw [betterCond_some]
      have : decide (b.2 < sc e) = false := by simp [not_lt.mpr he]
      rw [this, Bool.and_false]
    rw [bestScanLoop_cons, hcond]
    simp only [Bool.false_eq_true, if_false]
    exact ih b (fun x hx => hall x (by simp [hx]))

theorem bestScanLoop_append {α : Type} (sc : α → ℚ) (thr : ℚ) :
    ∀ (l1 l2 : List α) (best : Option (α × ℚ)),
      bestScanLoop sc thr (l1 ++ l2) best = bestScanLoop sc thr l2 (bestScanLoop sc thr l1 best) := by
  intro l1
  induction l1 with
  | nil => intro l2 best; rfl
  | cons e rest ih =>
    intro l2 best
    rw [List.cons_append, bestScanLoop_cons, bestScanLoop_cons]
    by_cases hc : betterCond sc thr e best = true
    · rw [if_pos hc, if_pos hc, ih]
    · rw [if_neg hc, if_neg hc, ih]

theorem bestScanLoop_some_spec {α : Type} (sc : α → ℚ) (thr : ℚ) :
    ∀ (l : List α) (best : Option (α × ℚ)) (p : α × ℚ), bestScanLoop sc thr l best = some p →
      (best = some p ∧ (∀ e ∈ l, thr ≤ sc e → sc e ≤ p.2)) ∨
      (∃ pre e post, l = pre ++ e :: post ∧ p = (e, sc e) ∧ thr ≤ sc e ∧
        (∀ q : α × ℚ, best = some q → q.2 < sc e) ∧
        (∀ e2 ∈ pre, thr ≤ sc e2 → sc e2 < sc e) ∧
        (∀ e2 ∈ post, thr ≤ sc e2 → sc e2 ≤ sc e)) := by
  intro l
  induction l with
  | nil =>
    intro best p h
    rw [bestScanLoop_nil] at h
    exact Or.inl ⟨h, fun e he => absurd he (List.not_mem_nil e)⟩
  | cons e rest ih =>
    intro best p h
    rw [bestScanLoop_cons] at h
    by_cases hc : betterCond sc thr e best = true
    · rw [if_pos hc] at h
      have hthr : thr ≤ sc e := by
        unfold betterCond at hc
        simp only [Bool.and_eq_true, decide_eq_true_eq] at hc
        exact hc.1
      have hbest : ∀ q : α × ℚ, best = some q → q.2 < sc e := by
        intro q hq
        rw [hq] at hc
        rw [betterCond_some] at hc
        simp only [Bool.and_eq_true, decide_eq_true_eq] at hc
        exact hc.2
      rcases ih (some (e, sc e)) p h with ⟨heq, hbound⟩ | ⟨pre, e2, post, hleq, hp, hthr2, hb2, hpre, hpost⟩
      · cases heq
        refine Or.inr ⟨[], e, rest, by simp, rfl, hthr, hbest, ?_, ?_⟩
        · intro x hx; simp at hx
        · intro x hx hthx
          exact hbound x hx hthx
      · have hee2 : sc e < sc e2 := hb2 (e, sc e) rfl
        refine Or.inr ⟨e :: pre, e2, post, by rw [hleq]; rfl, hp, hthr2, ?_, ?_, hpost⟩
        · intro q hq
          exact lt_trans (hbest q hq) hee2
        · intro x hx hthx
          rcases List.mem_cons.mp hx with hx | hx
          · rw [hx]; exact hee2
          · exact hpre x hx hthx
    · rw [if_neg hc] at h
      rcases ih best p h with ⟨heq, hbound⟩ | ⟨pre, e2, post, hleq, hp, hthr2, hb2, hpre, hpost⟩
      · refine Or.inl ⟨heq, ?_⟩
        intro x hx hthx
        rcases List.mem_cons.mp hx with hx | hx
        · subst hx
          rw [heq] at hc
          rw [betterCond_some] at hc
          simp only [Bool.and_eq_true, decide_eq_true_eq, not_and] at hc
          exact le_of_not_lt (hc hthx)
        · exact hbound x hx hthx
      · refine Or.inr ⟨e :: pre, e2, post, by rw [hleq]; rfl, hp, hthr2, hb2, ?_, hpost⟩
        intro x hx hthx
        rcases List.mem_cons.mp hx with hx | hx
        · subst hx
          cases hb : best with
          | none =>
            rw [hb, betterCond_none] at hc
            exact absurd hthx (by simpa using hc)
          | some q =>
            rw [hb, betterCond_some] at hc
            simp only [Bool.and_eq_true, decide_eq_true_eq, not_and] at hc
            have hxq : sc x ≤ q.2 := le_of_not_lt (hc hthx)
            have hq2 : q.2 < sc e2 := hb2 q hb
            exact lt_of_le_of_lt hxq hq2
        · exact hpre x hx hthx

/-- One duplicate report of `process-excel/route.ts` (`DuplicateInfo`);
`score` is present only in fuzzy mode. -/
structure DuplicateInfo where
  original : String
  duplicate : String
  originalIndex : Nat
  duplicateIndex : Nat
  score : Option ℚ
deriving DecidableEq

/-- An accepted signature with the index of the row it came from (the
entries of `uniqueSignatures`). -/
structure SigEntry where
  signature : String
  index : Nat
deriving DecidableEq

/-- `MatchResult` of `process-excel/route.ts`: the winning accepted
signature, its row index, and the similarity score. -/
structure FuzzyMatch where
  matchedSignature : String
  matchedIndex : Nat
  score : ℚ
deriving DecidableEq

/-- `findSimilarMatch` of `process-excel/route.ts`: scan every accepted
signature, keep the best scorer at or above the threshold (strictly better
scores replace the current best), or report no match. -/
def findSimilarMatch (signature : String) (existingSignatures : List SigEntry)
    (threshold : ℚ) (algorithm : SimilarityAlgorithm) : Option FuzzyMatch :=
  if existingSignatures = [] then none
  else
    (bestScanLoop (fun e => calculateSimilarity signature e.signature algorithm) threshold
      existingSignatures none).map fun p => ⟨p.1.signature, p.1.index, p.2⟩

/-- Lookup in the model of the `seen` map of `removeExactDuplicates`: an
association list searched front first (keys are unique because an entry is
only added when absent). -/
def lookupSeen (seen : List (String × Nat)) (s : String) : Option Nat :=
  (seen.find? fun q => q.1 == s).map Prod.snd

/-- Loop of `removeExactDuplicates`: `i` is the index of the head of `data`
in the sliced input, `seen` maps each seen signature to its first index. -/
def exactLoop (columns : List String) :
    List Record → Nat → List (String × Nat) → List Record × List DuplicateInfo
  | [], _, _ => ([], [])
  | row :: rest, i, seen =>
    match lookupSeen seen (createSignature row columns) with
    | none =>
      let r := exactLoop columns rest (i + 1) ((createSignature row columns, i) :: seen)
      (row :: r.1, r.2)
    | some j =>
      let r := exactLoop columns rest (i + 1) seen
      (r.1, ⟨createSignature row columns, createSignature row columns, j, i, none⟩ :: r.2)

/-- `removeExactDuplicates` of `process-excel/route.ts`. -/
def removeExactDuplicates (data : List Record) (columns : List String) :
    List Record × List DuplicateInfo :=
  exactLoop columns data 0 []

/-- Loop of `removeFuzzyDuplicates`: each row is matched against the
accepted signatures; on a match a scored duplicate is reported, otherwise
the row and its signature are accepted. -/
def fuzzyLoop (columns : List String) (threshold : ℚ) (algorithm : SimilarityAlgorithm) :
    List Record → Nat → List SigEntry → List Record × List DuplicateInfo
  | [], _, _ => ([], [])
  | row :: rest, i, uniqueSignatures =>
    match findSimilarMatch (createSignature row columns) uniqueSignatures threshold algorithm with
    | none =>
      let r := fuzzyLoop columns threshold algorithm rest (i + 1)
        (uniqueSignatures ++ [⟨createSignature row columns, i⟩])
      (row :: r.1, r.2)
    | some m =>
      let r := fuzzyLoop columns threshold algorithm rest (i + 1) uniqueSignatures
      (r.1, ⟨m.matchedSignature, createSignature row columns, m.matchedIndex, i,
        some m.score⟩ :: r.2)

/-- `removeFuzzyDuplicates` of `process-excel/route.ts`. -/
def removeFuzzyDuplicates (data : List Record) (columns : List String)
    (threshold : ℚ) (algorithm : SimilarityAlgorithm) :
    List Record × List DuplicateInfo :=
  fuzzyLoop columns threshold algorithm data 0 []

/-- `removeDuplicateRows` of `process-excel/route.ts`: mode dispatch. -/
def removeDuplicateRows (data : List Record) (columns : List String)
    (comparisonMode : ComparisonMode) (threshold : ℚ)
    (algorithm : SimilarityAlgorithm) : List Record × List DuplicateInfo :=
  match comparisonMode with
  | .exact => removeExactDuplicates data columns
  | .fuzzy => removeFuzzyDuplicates data columns threshold algorithm

/-- JS `Array.prototype.join(" ")` element conversion: null and undefined
elements become the empty string. -/
def joinElemString (v : Option Value) : String :=
  match v with
  | none => ""
  | some .vnull => ""
  | some w => jsValueToString w

/-- The `mergeColumns` string of the POST handler: raw selected values joined
with single spaces. -/
def mergeColumns (row : Record) (columns : List String) : String :=
  String.intercalate " " (columns.map fun col => joinElemString (row col))

/-- The `isni` anchor string attached to every returned row. -/
def isniAnchor (row : Record) (columns : List String) : String :=
  "<a href=https://isni.oclc.org/sru/?query=pica.nw+%3D+%22" ++ mergeColumns row columns ++
    "%22&operation=searchRetrieve&recordSchema=isni-b" ++ ">" ++
    mergeColumns row columns ++ "</a>"

/-- The row returned by the POST handler: the JS spread `{...row, isni}`,
a new record agreeing with `row` except at key `"isni"`. -/
def withIsni (columns : List String) (row : Record) : Record :=
  fun k => if k = "isni" then some (.vstr (isniAnchor row columns)) else row k

/-- JS `Array.prototype.slice(start, end)` restricted to natural indices:
the elements with index `start ≤ i < end`. -/
def jsSlice {α : Type} (l : List α) (start stop : Nat) : List α :=
  (l.take stop).drop start

/-- The success payload of the dedup POST handler. -/
structure ProcessResponse where
  uniqueRows : List Record
  originalCount : Nat
  uniqueCount : Nat
  removedCount : Int
  duplicatesFound : List DuplicateInfo

/-- `sliceEnd !== undefined ? sliceEnd : data.length` of the POST handler. -/
def sliceEndIndex (sliceEnd : Option Nat) (len : Nat) : Nat :=
  match sliceEnd with
  | some e => e
  | none => len

/-- The POST handler of `process-excel/route.ts` after JSON parsing:
validation, slicing, deduplication, isni annotation, response assembly.
`removedCount` is `data.length - uniqueRows.length` over the integers, as in
the JS source. -/
def processExcel (data : List Record) (columns : List String)
    (comparisonMode : ComparisonMode) (similarityThreshold : ℚ)
    (similarityAlgorithm : SimilarityAlgorithm) (sliceStart : Nat)
    (sliceEnd : Option Nat) : Except String ProcessResponse :=
  if data.length = 0 then .error "Invalid or empty data"
  else if columns.length = 0 then .error "No columns selected"
  else
    let slicedData := jsSlice data sliceStart (sliceEndIndex sliceEnd data.length)
    let r := removeDuplicateRows slicedData columns comparisonMode similarityThreshold
      similarityAlgorithm
    let uniqueRows := r.1.map (withIsni columns)
    .ok ⟨uniqueRows, data.length, uniqueRows.length,
      (data.length : Int) - (uniqueRows.length : Int), r.2⟩

/-- One output row of the cross-file matcher (`MatchResult` of
`match-columns/route.ts`). -/
structure MatchEntry where
  file1RowIndex : Nat
  file2RowIndex : Option Nat
  file1Value : Option Value
  file2Value : Option Value
  score : ℚ
  file1AdditionalData : List (String × Option Value)
  file2AdditionalData : List (String × Option Value)

/-- A pre-processed row of file 2 (one entry of `file2Values`). -/
structure F2Entry where
  index : Nat
  value : String
  row : Record

/-- `findBestMatch` of `match-columns/route.ts`: an empty search value never
matches; otherwise the same best-candidate loop as the dedup route runs over
the pre-normalized file-2 values. -/
def findBestMatch (searchValue : String) (file2Values : List F2Entry)
    (threshold : ℚ) (algorithm : SimilarityAlgorithm) : Option (F2Entry × ℚ) :=
  if searchValue = "" then none
  else bestScanLoop (fun e => calculateSimilarityMC searchValue e.value algorithm)
    threshold file2Values none

/-- One iteration of the matching loop of the POST handler of
`match-columns/route.ts`: the `MatchResult` pushed for file-1 row `i`. -/
def matchRow (file2Values : List F2Entry) (threshold : ℚ)
    (algorithm : SimilarityAlgorithm) (file1Column file2Column : String)
    (file1AdditionalColumns file2AdditionalColumns : List String)
    (i : Nat) (row : Record) : MatchEntry :=
  let best := findBestMatch (normalizeValue (row file1Column)) file2Values threshold algorithm
  { file1RowIndex := i
    file2RowIndex := best.map fun p => p.1.index
    file1Value := row file1Column
    file2Value := match best with | some p => p.1.row file2Column | none => none
    score := match best with | some p => p.2 | none => 0
    file1AdditionalData := file1AdditionalColumns.map fun col => (col, row col)
    file2AdditionalData :=
      match best with
      | some p => file2AdditionalColumns.map fun col => (col, p.1.row col)
      | none => [] }

/-- The matching loop of the POST handler with its two counters
(`matchedCount`, `unmatchedCount`). -/
def matchLoop (file2Values : List F2Entry) (threshold : ℚ)
    (algorithm : SimilarityAlgorithm) (file1Column file2Column : String)
    (file1AdditionalColumns file2AdditionalColumns : List String) :
    List (Nat × Record) → List MatchEntry × Nat × Nat
  | [] => ([], 0, 0)
  | (i, row) :: rest =>
    let e := matchRow file2Values threshold algorithm file1Column file2Column
      file1AdditionalColumns file2AdditionalColumns i row
    let r := matchLoop file2Values threshold algorithm file1Column file2Column
      file1AdditionalColumns file2AdditionalColumns rest
    if (findBestMatch (normalizeValue (row file1Column)) file2Values threshold
        algorithm).isSome
    then (e :: r.1, r.2.1 + 1, r.2.2)
    else (e :: r.1, r.2.1, r.2.2 + 1)

/-- The success payload of the cross-match POST handler; `matchList` models
the `matches` field of the JSON response (`matches` is a reserved word in
Lean). -/
structure MatchResponse where
  matchList : List MatchEntry
  totalFile1Rows : Nat
  totalFile2Rows : Nat
  matchedCount : Nat
  unmatchedCount : Nat

/-- The POST handler of `match-columns/route.ts` after JSON parsing:
validation, pre-normalization of file 2, matching loop, response assembly.
An empty string is falsy in JS, so an empty column name fails validation. -/
def matchColumns (file1Data file2Data : List Record) (file1Column file2Column : String)
    (file1AdditionalColumns file2AdditionalColumns : List String)
    (similarityThreshold : ℚ) (similarityAlgorithm : SimilarityAlgorithm) :
    Except String MatchResponse :=
  if file1Data.length = 0 then .error "Invalid or empty data for file 1"
  else if file2Data.length = 0 then .error "Invalid or empty data for file 2"
  else if file1Column = "" ∨ file2Column = "" then
    .error "Please select a column from each file"
  else
    let file2Values := file2Data.enum.map fun p =>
      F2Entry.mk p.1 (normalizeValue (p.2 file2Column)) p.2
    let r := matchLoop file2Values similarityThreshold similarityAlgorithm
      file1Column file2Column file1AdditionalColumns file2AdditionalColumns file1Data.enum
    .ok ⟨r.1, file1Data.length, file2Data.length, r.2.1, r.2.2⟩

theorem processExcel_ok (data : List Record) (columns : List String)
    (comparisonMode : ComparisonMode) (thr : ℚ) (alg : SimilarityAlgorithm)
    (sliceStart : Nat) (sliceEnd : Option Nat)
    (hd : ¬ data.length = 0) (hc : ¬ columns.length = 0) :
    processExcel data columns comparisonMode thr alg sliceStart sliceEnd =
      .ok ⟨(removeDuplicateRows (jsSlice data sliceStart (sliceEndIndex sliceEnd data.length))
              columns comparisonMode thr alg).1.map (withIsni columns),
           data.length,
           ((removeDuplicateRows (jsSlice data sliceStart (sliceEndIndex sliceEnd data.length))
              columns comparisonMode thr alg).1.map (withIsni columns)).length,
           (data.length : Int) -
             (((removeDuplicateRows (jsSlice data sliceStart (sliceEndIndex sliceEnd data.length))
              columns comparisonMode thr alg).1.map (withIsni columns)).length : Int),
           (removeDuplicateRows (jsSlice data sliceStart (sliceEndIndex sliceEnd data.length))
              columns comparisonMode thr alg).2⟩ := by
  unfold processExcel
  rw [if_neg hd, if_neg hc]

theorem jsSlice_out_of_range {α : Type} (l : List α) (start stop : Nat)
    (h : l.length ≤ start) : jsSlice l start stop = [] := by
  unfold jsSlice
  apply List.drop_eq_nil_of_le
  calc (l.take stop).length ≤ l.length := by
        rw [List.length_take]; omega
    _ ≤ start := h

theorem removeDuplicateRows_nil (columns : List String) (cm : ComparisonMode)
    (thr : ℚ) (alg : SimilarityAlgorithm) :
    removeDuplicateRows [] columns cm thr alg = ([], []) := by
  cases cm <;> rfl

/-- C10: with a non-empty input and a non-empty column selection, any
`sliceStart`/`sliceEnd` pair that selects an empty sub-range (whether
`sliceStart ≥ data.length`, or `sliceEnd ≤ sliceStart` with `sliceStart`
still in range, or any other combination making the computed slice empty)
is not rejected: the request succeeds with `uniqueRows = []`,
`uniqueCount = 0`, `duplicatesFound = []` and
`removedCount = originalCount`, because the emptiness validation runs on
the un-sliced input before slicing. -/
theorem c10_empty_slice_accepted (data : List Record) (columns : List String)
    (comparisonMode : ComparisonMode) (thr : ℚ) (alg : SimilarityAlgorithm)
    (sliceStart : Nat) (sliceEnd : Option Nat)
    (hd : ¬ data.length = 0) (hc : ¬ columns.length = 0)
    (hs : jsSlice data sliceStart (sliceEndIndex sliceEnd data.length) = []) :
    processExcel data columns comparisonMode thr alg sliceStart sliceEnd =
      .ok ⟨[], data.length, 0, (data.length : Int), []⟩ := by
  rw [processExcel_ok data columns comparisonMode thr alg sliceStart sliceEnd hd hc]
  rw [hs, removeDuplicateRows_nil]
  simp

/-- Closed witness for C10 at a concrete input: two records, one column,
and the empty sub-range `sliceStart = 1`, `sliceEnd = 1` with `sliceStart`
strictly inside the data. -/
theorem c10_empty_slice_accepted_witness :
    processExcel [fun _ => some (.vstr "x"), fun _ => some (.vstr "y")] ["A"] .fuzzy (8 / 10)
        .jaroWinkler 1 (some 1) =
      .ok ⟨[], 2, 0, (2 : Int), []⟩ :=
  c10_empty_slice_accepted [fun _ => some (.vstr "x"), fun _ => some (.vstr "y")] ["A"] .fuzzy
    (8 / 10) .jaroWinkler 1 (some 1) (by simp) (by simp) rfl

theorem matchLoop_cons (f2v : List F2Entry) (thr : ℚ) (alg : SimilarityAlgorithm)
    (c1 c2 : String) (a1 a2 : List String) (i : Nat) (row : Record)
    (rest : List (Nat × Record)) :
    matchLoop f2v thr alg c1 c2 a1 a2 ((i, row) :: rest) =
      (matchRow f2v thr alg c1 c2 a1 a2 i row :: (matchLoop f2v thr alg c1 c2 a1 a2 rest).1,
       (if (findBestMatch (normalizeValue (row c1)) f2v thr alg).isSome
        then (matchLoop f2v thr alg c1 c2 a1 a2 rest).2.1 + 1
        else (matchLoop f2v thr alg c1 c2 a1 a2 rest).2.1),
       (if (findBestMatch (normalizeValue (row c1)) f2v thr alg).isSome
        then (matchLoop f2v thr alg c1 c2 a1 a2 rest).2.2
        else (matchLoop f2v thr alg c1 c2 a1 a2 rest).2.2 + 1)) := by
  rw [show matchLoop f2v thr alg c1 c2 a1 a2 ((i, row) :: rest) =
      (if (findBestMatch (normalizeValue (row c1)) f2v thr alg).isSome
       then (matchRow f2v thr alg c1 c2 a1 a2 i row ::
           (matchLoop f2v thr alg c1 c2 a1 a2 rest).1,
         (matchLoop f2v thr alg c1 c2 a1 a2 rest).2.1 + 1,
         (matchLoop f2v thr alg c1 c2 a1 a2 rest).2.2)
       else (matchRow f2v thr alg c1 c2 a1 a2 i row ::
           (matchLoop f2v thr alg c1 c2 a1 a2 rest).1,
         (matchLoop f2v thr alg c1 c2 a1 a2 rest).2.1,
         (matchLoop f2v thr alg c1 c2 a1 a2 rest).2.2 + 1)) from rfl]
  by_cases hb : (findBestMatch (normalizeValue (row c1)) f2v thr alg).isSome
  · rw [if_pos hb, if_pos hb, if_pos hb]
  · rw [if_neg hb, if_neg hb, if_neg hb]

theorem matchLoop_length (f2v : List F2Entry) (thr : ℚ) (alg : SimilarityAlgorithm)
    (c1 c2 : String) (a1 a2 : List String) :
    ∀ l, (matchLoop f2v thr alg c1 c2 a1 a2 l).1.length = l.length := by
  intro l
  induction l with
  | nil => rfl
  | cons p rest ih =>
    obtain ⟨i, row⟩ := p
    rw [matchLoop_cons]
    simp only [List.length_cons, ih]

theorem matchLoop_counts (f2v : List F2Entry) (thr : ℚ) (alg : SimilarityAlgorithm)
    (c1 c2 : String) (a1 a2 : List String) :
    ∀ l, (matchLoop f2v thr alg c1 c2 a1 a2 l).2.1 +
      (matchLoop f2v thr alg c1 c2 a1 a2 l).2.2 = l.length := by
  intro l
  induction l with
  | nil => rfl
  | cons p rest ih =>
    obtain ⟨i, row⟩ := p
    rw [matchLoop_cons]
    by_cases hb : (findBestMatch (normalizeValue (row c1)) f2v thr alg).isSome
    · simp only [if_pos hb, List.length_cons]
      omega
    · simp only [if_neg hb, List.length_cons]
      omega

theorem matchRow_null_score (f2v : List F2Entry) (thr : ℚ) (alg : SimilarityAlgorithm)
    (c1 c2 : String) (a1 a2 : List String) (i : Nat) (row : Record)
    (hnull : (matchRow f2v thr alg c1 c2 a1 a2 i row).file2RowIndex = none) :
    (matchRow f2v thr alg c1 c2 a1 a2 i row).score = 0 := by
  unfold matchRow at hnull ⊢
  cases hb : findBestMatch (normalizeValue (row c1)) f2v thr alg with
  | none => simp [hb]
  | some p => rw [hb] at hnull; simp at hnull

theorem matchLoop_null_score (f2v : List F2Entry) (thr : ℚ) (alg : SimilarityAlgorithm)
    (c1 c2 : String) (a1 a2 : List String) :
    ∀ l e, e ∈ (matchLoop f2v thr alg c1 c2 a1 a2 l).1 →
      e.file2RowIndex = none → e.score = 0 := by
  intro l
  induction l with
  | nil => intro e he; simp [matchLoop] at he
  | cons p rest ih =>
    obtain ⟨i, row⟩ := p
    intro e he hnull
    rw [matchLoop_cons] at he
    rcases List.mem_cons.mp he with he | he
    · subst he
      exact matchRow_null_score f2v thr alg c1 c2 a1 a2 i row hnull
    · exact ih e he hnull

theorem matchColumns_ok (file1Data file2Data : List Record) (c1 c2 : String)
    (a1 a2 : List String) (thr : ℚ) (alg : SimilarityAlgorithm)
    (h1 : ¬ file1Data.length = 0) (h2 : ¬ file2Data.length = 0)
    (hc : ¬ (c1 = "" ∨ c2 = "")) :
    matchColumns file1Data file2Data c1 c2 a1 a2 thr alg =
      .ok ⟨(matchLoop (file2Data.enum.map fun p =>
              F2Entry.mk p.1 (normalizeValue (p.2 c2)) p.2) thr alg c1 c2 a1 a2
              file1Data.enum).1,
           file1Data.length, file2Data.length,
           (matchLoop (file2Data.enum.map fun p =>
              F2Entry.mk p.1 (normalizeValue (p.2 c2)) p.2) thr alg c1 c2 a1 a2
              file1Data.enum).2.1,
           (matchLoop (file2Data.enum.map fun p =>
              F2Entry.mk p.1 (normalizeValue (p.2 c2)) p.2) thr alg c1 c2 a1 a2
              file1Data.enum).2.2⟩ := by
  unfold matchColumns
  rw [if_neg h1, if_neg h2, if_neg hc]

/-- C3: a successful cross-match call on non-empty inputs returns exactly one
entry per source record (`matches.length = totalFile1Rows`), its two counters
partition the source rows (`matchedCount + unmatchedCount = totalFile1Rows`),
and every entry with a null target index carries score 0. -/
theorem c3_crossmatch_invariants (file1Data file2Data : List Record) (c1 c2 : String)
    (a1 a2 : List String) (thr : ℚ) (alg : SimilarityAlgorithm)
    (h1 : ¬ file1Data.length = 0) (h2 : ¬ file2Data.length = 0)
    (hc : ¬ (c1 = "" ∨ c2 = "")) (resp : MatchResponse)
    (hok : matchColumns file1Data file2Data c1 c2 a1 a2 thr alg = .ok resp) :
    resp.matchList.length = resp.totalFile1Rows ∧
    resp.totalFile1Rows = file1Data.length ∧
    resp.matchedCount + resp.unmatchedCount = resp.totalFile1Rows ∧
    ∀ e ∈ resp.matchList, e.file2RowIndex = none → e.score = 0 := by
  rw [matchColumns_ok file1Data file2Data c1 c2 a1 a2 thr alg h1 h2 hc] at hok
  cases hok
  refine ⟨?_, rfl, ?_, ?_⟩
  · show (matchLoop _ thr alg c1 c2 a1 a2 file1Data.enum).1.length = file1Data.length
    rw [matchLoop_length]
    exact List.enum_length
  · show (matchLoop _ thr alg c1 c2 a1 a2 file1Data.enum).2.1 +
      (matchLoop _ thr alg c1 c2 a1 a2 file1Data.enum).2.2 = file1Data.length
    rw [matchLoop_counts]
    exact List.enum_length
  · exact matchLoop_null_score _ thr alg c1 c2 a1 a2 file1Data.enum

/-- Concrete one-row inputs used by the C3 witness. -/
def c3wFile1 : List Record := [fun _ => some (.vstr "ab")]

/-- Concrete one-row target file used by the C3 witness. -/
def c3wFile2 : List Record := [fun _ => some (.vstr "ab")]

/-- The response computed by the cross-matcher on the C3 witness inputs. -/
def c3wResp : MatchResponse :=
  MatchResponse.mk
    (matchLoop (c3wFile2.enum.map fun p =>
        F2Entry.mk p.1 (normalizeValue (p.2 "B")) p.2) (8 / 10) .dice "A" "B" [] []
        c3wFile1.enum).1
    c3wFile1.length c3wFile2.length
    (matchLoop (c3wFile2.enum.map fun p =>
        F2Entry.mk p.1 (normalizeValue (p.2 "B")) p.2) (8 / 10) .dice "A" "B" [] []
        c3wFile1.enum).2.1
    (matchLoop (c3wFile2.enum.map fun p =>
        F2Entry.mk p.1 (normalizeValue (p.2 "B")) p.2) (8 / 10) .dice "A" "B" [] []
        c3wFile1.enum).2.2

/-- Closed witness for C3 at a concrete input: one source row and one target
row matched on columns "A" and "B". -/
theorem c3_crossmatch_invariants_witness :
    c3wResp.matchList.length = c3wResp.totalFile1Rows ∧
    c3wResp.totalFile1Rows = c3wFile1.length ∧
    c3wResp.matchedCount + c3wResp.unmatchedCount = c3wResp.totalFile1Rows ∧
    ∀ e ∈ c3wResp.matchList, e.file2RowIndex = none → e.score = 0 :=
  c3_crossmatch_invariants c3wFile1 c3wFile2 "A" "B" [] [] (8 / 10) .dice
    (by simp [c3wFile1]) (by simp [c3wFile2]) (by simp) c3wResp
    (matchColumns_ok c3wFile1 c3wFile2 "A" "B" [] [] (8 / 10) .dice
      (by simp [c3wFile1]) (by simp [c3wFile2]) (by simp))

/-- C6 counterexample: in the cross-match context the falsy-string guard
`if (!str1 || !str2) return 0` fires before the Levenshtein branch, so two
empty strings score 0 there, not 1 as the claim asserts for every context. -/
theorem c6_counterexample :
    ¬ (calculateSimilarityMC "" "" .levenshtein = 1) := by decide

/-- C6 (amended): the dedup-context scorer returns exactly 1 on two empty
strings and exactly 0 on "a" vs "b"; the cross-match scorer returns 0 on
"a" vs "b" as claimed, but returns 0 (not 1) on two empty strings because of
its falsy-string guard. -/
theorem c6_levenshtein_values :
    calculateSimilarity "" "" .levenshtein = 1 ∧
    calculateSimilarity "a" "b" .levenshtein = 0 ∧
    calculateSimilarityMC "a" "b" .levenshtein = 0 ∧
    calculateSimilarityMC "" "" .levenshtein = 0 := by
  have hlev : levDist "a".data "b".data = 1 := by decide
  have hmax : max "a".data.length "b".data.length = 1 := by decide
  refine ⟨by decide, ?_, ?_, by decide⟩
  · simp only [calculateSimilarity, hlev, hmax]
    norm_num
  · rw [calculateSimilarityMC_eq "a" "b" .levenshtein (by decide)]
    simp only [calculateSimilarity, hlev, hmax]
    norm_num

/-- C7 counterexample: in the signature-building context null/undefined
normalizes to "NULL", whose re-normalization is "null", so that normalizer
is not idempotent at null values. -/
theorem c7_counterexample :
    ¬ (normalizeSigValue (some (.vstr (normalizeSigValue none))) =
        normalizeSigValue none) := by decide

/-- C7 (amended): the cross-match normalizer is idempotent on every
representable value; the signature-context normalizer is idempotent on every
non-null value, while null/undefined (normalized to the literal "NULL")
re-normalizes to "null". -/
theorem c7_normalizer_idempotent (v : Option Value) (w : Value) (hw : w ≠ .vnull) :
    normalizeValue (some (.vstr (normalizeValue v))) = normalizeValue v ∧
    normalizeSigValue (some (.vstr (normalizeSigValue (some w)))) =
      normalizeSigValue (some w) := by
  constructor
  · cases v with
    | none => decide
    | some w2 =>
      cases w2 with
      | vnull => decide
      | vstr s =>
        show jsTrimLower (jsTrimLower s) = jsTrimLower s
        exact jsTrimLower_idem s
      | vnum n =>
        show jsTrimLower (jsTrimLower (toString n)) = jsTrimLower (toString n)
        exact jsTrimLower_idem (toString n)
      | vbool b =>
        show jsTrimLower (jsTrimLower (if b then "true" else "false")) =
          jsTrimLower (if b then "true" else "false")
        exact jsTrimLower_idem _
  · cases w with
    | vnull => exact absurd rfl hw
    | vstr s =>
      show jsTrimLower (jsTrimLower s) = jsTrimLower s
      exact jsTrimLower_idem s
    | vnum n =>
      show jsTrimLower (jsTrimLower (toString n)) = jsTrimLower (toString n)
      exact jsTrimLower_idem (toString n)
    | vbool b =>
      show jsTrimLower (jsTrimLower (if b then "true" else "false")) =
        jsTrimLower (if b then "true" else "false")
      exact jsTrimLower_idem _

/-- Closed witness for the amended C7 at concrete values: a number in the
cross-match context and a padded upper-case string in the signature context. -/
theorem c7_normalizer_idempotent_witness :
    normalizeValue (some (.vstr (normalizeValue (some (.vnum 42))))) =
      normalizeValue (some (.vnum 42)) ∧
    normalizeSigValue (some (.vstr (normalizeSigValue (some (.vstr " A "))))) =
      normalizeSigValue (some (.vstr " A ")) :=
  c7_normalizer_idempotent (some (.vnum 42)) (.vstr " A ") (by decide)

/-- C8: both similarity dispatchers are symmetric in their two string
arguments and bounded in [0,1] for each of the three algorithms; determinism
holds by construction, both being pure functions of their arguments. -/
theorem c8_similarity_symmetric_bounded (a b : String) (alg : SimilarityAlgorithm) :
    calculateSimilarity a b alg = calculateSimilarity b a alg ∧
    0 ≤ calculateSimilarity a b alg ∧ calculateSimilarity a b alg ≤ 1 ∧
    calculateSimilarityMC a b alg = calculateSimilarityMC b a alg ∧
    0 ≤ calculateSimilarityMC a b alg ∧ calculateSimilarityMC a b alg ≤ 1 :=
  ⟨calculateSimilarity_symm a b alg, calculateSimilarity_nonneg a b alg,
   calculateSimilarity_le_one a b alg, calculateSimilarityMC_symm a b alg,
   calculateSimilarityMC_nonneg a b alg, calculateSimilarityMC_le_one a b alg⟩

/-- A record that already owns an `isni` field, used to refute C9 as stated. -/
def c9Row : Record := fun k =>
  if k = "isni" then some (.vstr "keep")
  else if k = "A" then some (.vstr "x") else none

/-- C9 counterexample: on a record that already has an `isni` field, the row
returned in `uniqueRows` does not agree with the input on that original
field — the spread overwrites it with the derived anchor. -/
theorem c9_counterexample : ¬ (withIsni ["A"] c9Row "isni" = c9Row "isni") := by
  decide

/-- C9 (amended): no operation mutates an input record (the embedding of the
handlers is pure, and output rows are fresh records built by the spread
`{...row, isni}`); for a record without a pre-existing `isni` field, the
returned row agrees with the accepted input row on every original field and
adds exactly the derived `isni` annotation; a pre-existing `isni` field is
instead overwritten. -/
theorem c9_rows_preserved (columns : List String) (row : Record) (k : String)
    (hnoisni : row "isni" = none) (hk : k ≠ "isni") :
    withIsni columns row k = row k ∧
    withIsni columns row "isni" = some (.vstr (isniAnchor row columns)) ∧
    (row "isni").isSome = false ∧ (withIsni columns row "isni").isSome = true := by
  refine ⟨?_, ?_, ?_, ?_⟩
  · unfold withIsni; rw [if_neg hk]
  · unfold withIsni; rw [if_pos rfl]
  · rw [hnoisni]; rfl
  · unfold withIsni; rw [if_pos rfl]; rfl

/-- Closed witness for the amended C9 at a concrete record and field. -/
theorem c9_rows_preserved_witness :
    withIsni ["A"] (fun k => if k = "A" then some (.vstr "x") else none) "A" =
      (fun k : String => if k = "A" then some (.vstr "x") else none) "A" ∧
    withIsni ["A"] (fun k => if k = "A" then some (.vstr "x") else none) "isni" =
      some (.vstr (isniAnchor (fun k => if k = "A" then some (.vstr "x") else none) ["A"])) ∧
    ((fun k : String => if k = "A" then some (Value.vstr "x") else none) "isni").isSome = false ∧
    (withIsni ["A"] (fun k => if k = "A" then some (.vstr "x") else none) "isni").isSome = true :=
  c9_rows_preserved ["A"] (fun k => if k = "A" then some (.vstr "x") else none) "A"
    (by decide) (by decide)

theorem lookupSeen_nil (s : String) : lookupSeen [] s = none := rfl

theorem lookupSeen_cons (k : String) (v : Nat) (seen : List (String × Nat)) (s : String) :
    lookupSeen ((k, v) :: seen) s = if k = s then some v else lookupSeen seen s := by
  unfold lookupSeen
  rw [List.find?_cons]
  by_cases h : k = s
  · have hb : (k == s) = true := by simp [h]
    rw [hb, if_pos h]
    rfl
  · have hb : (k == s) = false := by simp [h]
    rw [hb, if_neg h]

theorem exactLoop_nil (columns : List String) (i : Nat) (seen : List (String × Nat)) :
    exactLoop columns [] i seen = ([], []) := rfl

theorem exactLoop_cons_none (columns : List String) (row : Record) (rest : List Record)
    (i : Nat) (seen : List (String × Nat))
    (h : lookupSeen seen (createSignature row columns) = none) :
    exactLoop columns (row :: rest) i seen =
      (row :: (exactLoop columns rest (i + 1) ((createSignature row columns, i) :: seen)).1,
       (exactLoop columns rest (i + 1) ((createSignature row columns, i) :: seen)).2) := by
  rw [show exactLoop columns (row :: rest) i seen =
      (match lookupSeen seen (createSignature row columns) with
       | none =>
         (row :: (exactLoop columns rest (i + 1) ((createSignature row columns, i) :: seen)).1,
          (exactLoop columns rest (i + 1) ((createSignature row columns, i) :: seen)).2)
       | some j =>
         ((exactLoop columns rest (i + 1) seen).1,
          ⟨createSignature row columns, createSignature row columns, j, i, none⟩ ::
            (exactLoop columns rest (i + 1) seen).2)) from rfl, h]

theorem exactLoop_cons_some (columns : List String) (row : Record) (rest : List Record)
    (i j : Nat) (seen : List (String × Nat))
    (h : lookupSeen seen (createSignature row columns) = some j) :
    exactLoop columns (row :: rest) i seen =
      ((exactLoop columns rest (i + 1) seen).1,
       ⟨createSignature row columns, createSignature row columns, j, i, none⟩ ::
         (exactLoop columns rest (i + 1) seen).2) := by
  rw [show exactLoop columns (row :: rest) i seen =
      (match lookupSeen seen (createSignature row columns) with
       | none =>
         (row :: (exactLoop columns rest (i + 1) ((createSignature row columns, i) :: seen)).1,
          (exactLoop columns rest (i + 1) ((createSignature row columns, i) :: seen)).2)
       | some j =>
         ((exactLoop columns rest (i + 1) seen).1,
          ⟨createSignature row columns, createSignature row columns, j, i, none⟩ ::
            (exactLoop columns rest (i + 1) seen).2)) from rfl, h]

/-- Declarative first-occurrence selection: keep the record at position `i`
exactly when no record at a smaller position has the same signature. -/
def firstOccSpec (columns : List String) (data : List Record) : List Record :=
  (data.enum.filter fun p =>
    ((data.take p.1).map fun r => createSignature r columns).all
      fun s => decide (s ≠ createSignature p.2 columns)).map Prod.snd

theorem exactLoop_firstOcc (columns : List String) :
    ∀ (data pre : List Record) (seen : List (String × Nat)),
      (∀ s : String, (lookupSeen seen s).isSome = true ↔
        s ∈ pre.map fun r => createSignature r columns) →
      (exactLoop columns data pre.length seen).1 =
        ((data.enumFrom pre.length).filter fun p =>
          (((pre ++ data).take p.1).map fun r => createSignature r columns).all
            fun s => decide (s ≠ createSignature p.2 columns)).map Prod.snd := by
  intro data
  induction data with
  | nil => intro pre seen hmem; rfl
  | cons row rest ih =>
    intro pre seen hmem
    have htake : (pre ++ row :: rest).take pre.length = pre := List.take_left pre _
    have hcondI :
        ((((pre ++ row :: rest).take pre.length).map fun r => createSignature r columns).all
          fun s => decide (s ≠ createSignature row columns)) = true ↔
        lookupSeen seen (createSignature row columns) = none := by
      rw [htake, List.all_eq_true]
      constructor
      · intro hall
        cases ho : lookupSeen seen (createSignature row columns) with
        | none => rfl
        | some j =>
          have hin : createSignature row columns ∈ pre.map fun r => createSignature r columns := by
            rw [← hmem]
            rw [ho]
            rfl
          have := hall _ hin
          simp at this
      · intro hnone s hs
        by_contra hne
        simp only [decide_eq_true_eq, Decidable.not_not] at hne
        subst hne
        have hsome : (lookupSeen seen (createSignature row columns)).isSome = true :=
          (hmem _).mpr hs
        rw [hnone] at hsome
        simp at hsome
    have hpre1 : (pre ++ [row]).length = pre.length + 1 := by simp
    rw [show (row :: rest).enumFrom pre.length =
        (pre.length, row) :: rest.enumFrom (pre.length + 1) from rfl]
    rw [List.filter_cons]
    cases hl : lookupSeen seen (createSignature row columns) with
    | none =>
      rw [exactLoop_cons_none columns row rest pre.length seen hl]
      have hcond2 : ((((pre ++ row :: rest).take (pre.length, row).1).map
          fun r => createSignature r columns).all
          fun s => decide (s ≠ createSignature (pre.length, row).2 columns)) = true :=
        hcondI.mpr hl
      rw [hcond2]
      rw [if_pos rfl]
      simp only [List.map_cons]
      have hmem2 : ∀ s : String,
          (lookupSeen ((createSignature row columns, pre.length) :: seen) s).isSome = true ↔
          s ∈ (pre ++ [row]).map fun r => createSignature r columns := by
        intro s
        rw [lookupSeen_cons]
        by_cases hssig : createSignature row columns = s
        · subst hssig
          simp
        · rw [if_neg hssig, hmem s]
          simp only [List.map_append, List.mem_append, List.map_cons, List.map_nil,
            List.mem_singleton]
          constructor
          · exact fun h => Or.inl h
          · intro h
            rcases h with h | h
            · exact h
            · exact absurd h.symm hssig
      have hih := ih (pre ++ [row]) ((createSignature row columns, pre.length) :: seen) hmem2
      rw [hpre1] at hih
      rw [show (pre ++ [row]) ++ rest = pre ++ row :: rest by simp] at hih
      simpa using hih
    | some j =>
      rw [exactLoop_cons_some columns row rest pre.length j seen hl]
      have hcondF :
          ((((pre ++ row :: rest).take pre.length).map fun r => createSignature r columns).all
            fun s => decide (s ≠ createSignature row columns)) = false := by
        cases hb : ((((pre ++ row :: rest).take pre.length).map
            fun r => createSignature r columns).all
            fun s => decide (s ≠ createSignature row columns)) with
        | false => rfl
        | true =>
          rw [hcondI] at hb
          rw [hl] at hb
          cases hb
      have hcondF2 : ((((pre ++ row :: rest).take (pre.length, row).1).map
          fun r => createSignature r columns).all
          fun s => decide (s ≠ createSignature (pre.length, row).2 columns)) = false :=
        hcondF
      rw [hcondF2]
      simp only [Bool.false_eq_true, if_false]
      have hmem2 : ∀ s : String, (lookupSeen seen s).isSome = true ↔
          s ∈ (pre ++ [row]).map fun r => createSignature r columns := by
        intro s
        simp only [List.map_append, List.mem_append, List.map_cons, List.map_nil,
          List.mem_singleton]
        constructor
        · intro h
          exact Or.inl ((hmem s).mp h)
        · intro h
          rcases h with h | h
          · exact (hmem s).mpr h
          · subst h
            rw [hl]
            rfl
      have hih := ih (pre ++ [row]) seen hmem2
      rw [hpre1] at hih
      rw [show (pre ++ [row]) ++ rest = pre ++ row :: rest by simp] at hih
      simpa using hih

theorem removeExact_eq_firstOccSpec (data : List Record) (columns : List String) :
    (removeExactDuplicates data columns).1 = firstOccSpec columns data := by
  have h := exactLoop_firstOcc columns data [] []
    (by intro s; rw [lookupSeen_nil]; simp)
  simpa [removeExactDuplicates, firstOccSpec] using h

theorem firstOccSpec_length_le (data : List Record) (columns : List String) :
    (firstOccSpec columns data).length ≤ data.length := by
  unfold firstOccSpec
  rw [List.length_map]
  calc (data.enum.filter _).length ≤ data.enum.length := List.length_filter_le _ _
    _ = data.length := List.enum_length

/-- C1: on a non-empty input and column selection in exact mode (default
slice), the returned `uniqueRows` are exactly the (annotated) first
occurrences of each distinct signature, in original input order, with
`uniqueCount = |firstOccurrences|`, `originalCount = |data|`, and
`removedCount = originalCount - uniqueCount ≥ 0`. -/
theorem c1_exact_first_occurrences (data : List Record) (columns : List String)
    (thr : ℚ) (alg : SimilarityAlgorithm)
    (hd : ¬ data.length = 0) (hc : ¬ columns.length = 0) :
    processExcel data columns .exact thr alg 0 none =
      .ok ⟨(firstOccSpec columns data).map (withIsni columns),
           data.length,
           (firstOccSpec columns data).length,
           (data.length : Int) - ((firstOccSpec columns data).length : Int),
           (removeExactDuplicates data columns).2⟩ ∧
    (firstOccSpec columns data).length ≤ data.length ∧
    (0 : Int) ≤ (data.length : Int) - ((firstOccSpec columns data).length : Int) := by
  have hlen := firstOccSpec_length_le data columns
  refine ⟨?_, hlen, by omega⟩
  rw [processExcel_ok data columns .exact thr alg 0 none hd hc]
  have hslice : jsSlice data 0 (sliceEndIndex none data.length) = data := by
    unfold jsSlice sliceEndIndex
    rw [List.take_length, List.drop_zero]
  rw [hslice]
  rw [show removeDuplicateRows data columns .exact thr alg =
      removeExactDuplicates data columns from rfl]
  rw [removeExact_eq_firstOccSpec data columns]
  rw [List.length_map]

/-- Concrete three-row input with one duplicated signature, for the C1
witness. -/
def c1wData : List Record :=
  [fun k => if k = "Name" then some (.vstr "John") else none,
   fun k => if k = "Name" then some (.vstr "Jane") else none,
   fun k => if k = "Name" then some (.vstr " JOHN ") else none]

/-- Closed witness for C1 at the concrete three-row input. -/
theorem c1_exact_first_occurrences_witness :
    processExcel c1wData ["Name"] .exact (8 / 10) .jaroWinkler 0 none =
      .ok ⟨(firstOccSpec ["Name"] c1wData).map (withIsni ["Name"]),
           c1wData.length,
           (firstOccSpec ["Name"] c1wData).length,
           (c1wData.length : Int) - ((firstOccSpec ["Name"] c1wData).length : Int),
           (removeExactDuplicates c1wData ["Name"]).2⟩ ∧
    (firstOccSpec ["Name"] c1wData).length ≤ c1wData.length ∧
    (0 : Int) ≤ (c1wData.length : Int) - ((firstOccSpec ["Name"] c1wData).length : Int) :=
  c1_exact_first_occurrences c1wData ["Name"] (8 / 10) .jaroWinkler
    (by simp [c1wData]) (by simp)

theorem findSimilarMatch_none_iff (signature : String) (l : List SigEntry) (thr : ℚ)
    (alg : SimilarityAlgorithm) :
    findSimilarMatch signature l thr alg = none ↔
      ∀ e ∈ l, calculateSimilarity signature e.signature alg < thr := by
  unfold findSimilarMatch
  by_cases hnil : l = []
  · subst hnil
    simp
  · rw [if_neg hnil]
    constructor
    · intro h
      have hloop : bestScanLoop (fun e => calculateSimilarity signature e.signature alg)
          thr l none = none := by
        cases hb : bestScanLoop (fun e => calculateSimilarity signature e.signature alg)
            thr l none with
        | none => rfl
        | some p => rw [hb] at h; simp at h
      exact (bestScanLoop_none_iff _ _ l).mp hloop
    · intro h
      rw [(bestScanLoop_none_iff _ _ l).mpr h]
      rfl

theorem findSimilarMatch_some_spec (signature : String) (l : List SigEntry) (thr : ℚ)
    (alg : SimilarityAlgorithm) (m : FuzzyMatch)
    (h : findSimilarMatch signature l thr alg = some m) :
    thr ≤ m.score ∧
    ∃ pre e post, l = pre ++ e :: post ∧
      m.matchedSignature = e.signature ∧ m.matchedIndex = e.index ∧
      m.score = calculateSimilarity signature e.signature alg ∧
      (∀ e2 ∈ pre, calculateSimilarity signature e2.signature alg < m.score) ∧
      (∀ e2 ∈ post, calculateSimilarity signature e2.signature alg ≤ m.score) := by
  unfold findSimilarMatch at h
  by_cases hnil : l = []
  · rw [if_pos hnil] at h
    cases h
  · rw [if_neg hnil] at h
    cases hb : bestScanLoop (fun e => calculateSimilarity signature e.signature alg)
        thr l none with
    | none => rw [hb] at h; cases h
    | some p =>
      rw [hb] at h
      simp only [Option.map_some'] at h
      cases h
      rcases bestScanLoop_some_spec _ thr l none p hb with
        ⟨heq, _⟩ | ⟨pre, e, post, hsplit, hp, hthr, _, hpre, hpost⟩
      · cases heq
      · subst hp
        refine ⟨hthr, pre, e, post, hsplit, rfl, rfl, rfl, ?_, ?_⟩
        · intro e2 he2
          by_cases hq : thr ≤ calculateSimilarity signature e2.signature alg
          · exact hpre e2 he2 hq
          · exact lt_of_lt_of_le (lt_of_not_le hq) hthr
        · intro e2 he2
          by_cases hq : thr ≤ calculateSimilarity signature e2.signature alg
          · exact hpost e2 he2 hq
          · exact le_of_lt (lt_of_lt_of_le (lt_of_not_le hq) hthr)

theorem fuzzyLoop_nil (columns : List String) (thr : ℚ) (alg : SimilarityAlgorithm)
    (i : Nat) (acc : List SigEntry) : fuzzyLoop columns thr alg [] i acc = ([], []) := rfl

theorem fuzzyLoop_cons_none (columns : List String) (thr : ℚ) (alg : SimilarityAlgorithm)
    (row : Record) (rest : List Record) (i : Nat) (acc : List SigEntry)
    (h : findSimilarMatch (createSignature row columns) acc thr alg = none) :
    fuzzyLoop columns thr alg (row :: rest) i acc =
      (row :: (fuzzyLoop columns thr alg rest (i + 1)
          (acc ++ [⟨createSignature row columns, i⟩])).1,
       (fuzzyLoop columns thr alg rest (i + 1)
          (acc ++ [⟨createSignature row columns, i⟩])).2) := by
  rw [show fuzzyLoop columns thr alg (row :: rest) i acc =
      (match findSimilarMatch (createSignature row columns) acc thr alg with
       | none =>
         (row :: (fuzzyLoop columns thr alg rest (i + 1)
             (acc ++ [⟨createSignature row columns, i⟩])).1,
          (fuzzyLoop columns thr alg rest (i + 1)
             (acc ++ [⟨createSignature row columns, i⟩])).2)
       | some m =>
         ((fuzzyLoop columns thr alg rest (i + 1) acc).1,
          ⟨m.matchedSignature, createSignature row columns, m.matchedIndex, i,
            some m.score⟩ :: (fuzzyLoop columns thr alg rest (i + 1) acc).2)) from rfl, h]

theorem fuzzyLoop_cons_some (columns : List String) (thr : ℚ) (alg : SimilarityAlgorithm)
    (row : Record) (rest : List Record) (i : Nat) (acc : List SigEntry) (m : FuzzyMatch)
    (h : findSimilarMatch (createSignature row columns) acc thr alg = some m) :
    fuzzyLoop columns thr alg (row :: rest) i acc =
      ((fuzzyLoop columns thr alg rest (i + 1) acc).1,
       ⟨m.matchedSignature, createSignature row columns, m.matchedIndex, i,
         some m.score⟩ :: (fuzzyLoop columns thr alg rest (i + 1) acc).2) := by
  rw [show fuzzyLoop columns thr alg (row :: rest) i acc =
      (match findSimilarMatch (createSignature row columns) acc thr alg with
       | none =>
         (row :: (fuzzyLoop columns thr alg rest (i + 1)
             (acc ++ [⟨createSignature row columns, i⟩])).1,
          (fuzzyLoop columns thr alg rest (i + 1)
             (acc ++ [⟨createSignature row columns, i⟩])).2)
       | some m =>
         ((fuzzyLoop columns thr alg rest (i + 1) acc).1,
          ⟨m.matchedSignature, createSignature row columns, m.matchedIndex, i,
            some m.score⟩ :: (fuzzyLoop columns thr alg rest (i + 1) acc).2)) from rfl, h]

/-- C2: one step of the fuzzy left-to-right pass.  If no accepted signature
scores at or above the threshold against the current record, the record is
appended to the accepted output (and its signature to the accepted list);
otherwise the record is excluded and reported as a duplicate of a
maximum-scoring accepted candidate carrying that score, and on exact score
ties the first-encountered accepted candidate wins (candidates before the
chosen one score strictly less, candidates after at most as much). -/
theorem c2_fuzzy_step (columns : List String) (thr : ℚ) (alg : SimilarityAlgorithm)
    (row : Record) (rest : List Record) (i : Nat) (accepted : List SigEntry) :
    ((∀ e ∈ accepted, calculateSimilarity (createSignature row columns) e.signature alg < thr) →
      fuzzyLoop columns thr alg (row :: rest) i accepted =
        (row :: (fuzzyLoop columns thr alg rest (i + 1)
            (accepted ++ [⟨createSignature row columns, i⟩])).1,
         (fuzzyLoop columns thr alg rest (i + 1)
            (accepted ++ [⟨createSignature row columns, i⟩])).2)) ∧
    ((∃ e ∈ accepted, thr ≤ calculateSimilarity (createSignature row columns) e.signature alg) →
      ∃ m : FuzzyMatch,
        findSimilarMatch (createSignature row columns) accepted thr alg = some m ∧
        fuzzyLoop columns thr alg (row :: rest) i accepted =
          ((fuzzyLoop columns thr alg rest (i + 1) accepted).1,
           ⟨m.matchedSignature, createSignature row columns, m.matchedIndex, i,
             some m.score⟩ :: (fuzzyLoop columns thr alg rest (i + 1) accepted).2) ∧
        thr ≤ m.score ∧
        (∃ pre e post, accepted = pre ++ e :: post ∧
          m.matchedSignature = e.signature ∧ m.matchedIndex = e.index ∧
          m.score = calculateSimilarity (createSignature row columns) e.signature alg ∧
          (∀ e2 ∈ pre,
            calculateSimilarity (createSignature row columns) e2.signature alg < m.score) ∧
          (∀ e2 ∈ post,
            calculateSimilarity (createSignature row columns) e2.signature alg ≤ m.score))) := by
  constructor
  · intro hall
    exact fuzzyLoop_cons_none columns thr alg row rest i accepted
      ((findSimilarMatch_none_iff _ accepted thr alg).mpr hall)
  · intro hex
    cases hm : findSimilarMatch (createSignature row columns) accepted thr alg with
    | none =>
      obtain ⟨e, he, hthr⟩ := hex
      have hall := (findSimilarMatch_none_iff _ accepted thr alg).mp hm
      exact absurd hthr (not_le_of_lt (hall e he))
    | some m =>
      obtain ⟨hthr, pre, e, post, hsplit, hsig, hidx, hsc, hpre, hpost⟩ :=
        findSimilarMatch_some_spec _ accepted thr alg m hm
      exact ⟨m, rfl, fuzzyLoop_cons_some columns thr alg row rest i accepted m hm, hthr,
        pre, e, post, hsplit, hsig, hidx, hsc, hpre, hpost⟩

/-- Concrete record whose single-column signature is "a", for the C2 witness. -/
def c2wRow : Record := fun k => if k = "A" then some (.vstr "a") else none

/-- Closed witness for C2: with an empty accepted set the record is appended;
with an accepted set containing an identical signature at threshold 1 under
Levenshtein, the record is excluded and reported against that candidate. -/
theorem c2_fuzzy_step_witness :
    (fuzzyLoop ["A"] 1 .levenshtein (c2wRow :: []) 1 [] =
      (c2wRow :: (fuzzyLoop ["A"] 1 .levenshtein [] 2
          ([] ++ [⟨createSignature c2wRow ["A"], 1⟩])).1,
       (fuzzyLoop ["A"] 1 .levenshtein [] 2
          ([] ++ [⟨createSignature c2wRow ["A"], 1⟩])).2)) ∧
    (∃ m : FuzzyMatch,
      findSimilarMatch (createSignature c2wRow ["A"]) [SigEntry.mk "a" 0] 1 .levenshtein =
        some m ∧
      fuzzyLoop ["A"] 1 .levenshtein (c2wRow :: []) 1 [SigEntry.mk "a" 0] =
        ((fuzzyLoop ["A"] 1 .levenshtein [] 2 [SigEntry.mk "a" 0]).1,
         ⟨m.matchedSignature, createSignature c2wRow ["A"], m.matchedIndex, 1,
           some m.score⟩ :: (fuzzyLoop ["A"] 1 .levenshtein [] 2 [SigEntry.mk "a" 0]).2) ∧
      1 ≤ m.score ∧
      (∃ pre e post, [SigEntry.mk "a" 0] = pre ++ e :: post ∧
        m.matchedSignature = e.signature ∧ m.matchedIndex = e.index ∧
        m.score = calculateSimilarity (createSignature c2wRow ["A"]) e.signature .levenshtein ∧
        (∀ e2 ∈ pre,
          calculateSimilarity (createSignature c2wRow ["A"]) e2.signature .levenshtein < m.score) ∧
        (∀ e2 ∈ post,
          calculateSimilarity (createSignature c2wRow ["A"]) e2.signature .levenshtein ≤ m.score))) :=
  ⟨(c2_fuzzy_step ["A"] 1 .levenshtein c2wRow [] 1 []).1
      (fun e he => absurd he (List.not_mem_nil e)),
   (c2_fuzzy_step ["A"] 1 .levenshtein c2wRow [] 1 [SigEntry.mk "a" 0]).2
      ⟨SigEntry.mk "a" 0, by simp, by
        rw [show createSignature c2wRow ["A"] = "a" from by decide]
        exact (calculateSimilarity_lev_ge_one_iff "a" "a").mpr rfl⟩⟩

/-- The two algorithms under which a similarity of 1 is attained exactly on
identical strings in this model. -/
def goodAlg (alg : SimilarityAlgorithm) : Prop :=
  alg = .levenshtein ∨ alg = .jaroWinkler

theorem calculateSimilarity_good_ge_one_iff (a b : String) (alg : SimilarityAlgorithm)
    (h : goodAlg alg) : 1 ≤ calculateSimilarity a b alg ↔ a = b := by
  rcases h with h | h
  · rw [h]; exact calculateSimilarity_lev_ge_one_iff a b
  · rw [h]; exact calculateSimilarity_jw_ge_one_iff a b

theorem findSimilarMatch_thr_one (alg : SimilarityAlgorithm) (halg : goodAlg alg)
    (s : String) (l : List SigEntry) :
    findSimilarMatch s l 1 alg =
      (l.find? fun e => e.signature == s).map fun e => ⟨s, e.index, 1⟩ := by
  cases hfind : l.find? fun e => e.signature == s with
  | none =>
    show findSimilarMatch s l 1 alg = none
    rw [findSimilarMatch_none_iff]
    intro e he
    have hne := List.find?_eq_none.mp hfind e he
    simp only [beq_iff_eq] at hne
    have : ¬ (1 ≤ calculateSimilarity s e.signature alg) := by
      rw [calculateSimilarity_good_ge_one_iff s e.signature alg halg]
      exact fun hc => hne hc.symm
    exact lt_of_not_le this
  | some e =>
    obtain ⟨hpe, pre, post, hsplit, hpre⟩ := List.find?_eq_some.mp hfind
    simp only [beq_iff_eq] at hpe
    have hnn : ¬ l = [] := by rw [hsplit]; simp
    have hsc1 : calculateSimilarity s e.signature alg = 1 := by
      have hge : 1 ≤ calculateSimilarity s e.signature alg :=
        (calculateSimilarity_good_ge_one_iff s e.signature alg halg).mpr hpe.symm
      exact le_antisymm (calculateSimilarity_le_one s e.signature alg) hge
    have hprelt : ∀ x ∈ pre, calculateSimilarity s x.signature alg < 1 := by
      intro x hx
      have hxp := hpre x hx
      simp only [Bool.not_eq_true', beq_eq_false_iff_ne] at hxp
      have hne : ¬ (s = x.signature) := fun hc => hxp hc.symm
      have hnle : ¬ (1 ≤ calculateSimilarity s x.signature alg) := by
        rw [calculateSimilarity_good_ge_one_iff s x.signature alg halg]
        exact hne
      exact lt_of_not_le hnle
    unfold findSimilarMatch
    rw [if_neg hnn, hsplit]
    rw [bestScanLoop_append]
    rw [bestScanLoop_below _ 1 pre none (by
      intro x hx
      exact hprelt x hx)]
    rw [bestScanLoop_cons]
    have hbc : betterCond (fun x => calculateSimilarity s x.signature alg) 1 e none = true := by
      rw [betterCond_none]
      rw [hsc1]
      decide
    rw [hbc, if_pos rfl]
    rw [bestScanLoop_dominated _ 1 post (e, calculateSimilarity s e.signature alg) (by
      intro x hx
      rw [hsc1]
      exact calculateSimilarity_le_one s x.signature alg)]
    simp only [Option.map_some']
    rw [hsc1, hpe]

theorem fuzzy_exact_loops_agree (columns : List String) (alg : SimilarityAlgorithm)
    (halg : goodAlg alg) :
    ∀ (data : List Record) (i : Nat) (seen : List (String × Nat)) (acc : List SigEntry),
      (∀ s, lookupSeen seen s =
        (acc.find? fun e => e.signature == s).map fun e => e.index) →
      (fuzzyLoop columns 1 alg data i acc).1 = (exactLoop columns data i seen).1 ∧
      (fuzzyLoop columns 1 alg data i acc).2.map
          (fun d => (d.originalIndex, d.duplicateIndex)) =
        (exactLoop columns data i seen).2.map
          (fun d => (d.originalIndex, d.duplicateIndex)) := by
  intro data
  induction data with
  | nil => intro i seen acc hinv; exact ⟨rfl, rfl⟩
  | cons row rest ih =>
    intro i seen acc hinv
    have hfsm := findSimilarMatch_thr_one alg halg (createSignature row columns) acc
    cases hfind : acc.find? (fun e => e.signature == createSignature row columns) with
    | none =>
      have hfsmn : findSimilarMatch (createSignature row columns) acc 1 alg = none := by
        rw [hfsm, hfind]
        rfl
      have hlook : lookupSeen seen (createSignature row columns) = none := by
        rw [hinv, hfind]
        rfl
      rw [fuzzyLoop_cons_none columns 1 alg row rest i acc hfsmn,
        exactLoop_cons_none columns row rest i seen hlook]
      have hinv2 : ∀ s, lookupSeen ((createSignature row columns, i) :: seen) s =
          ((acc ++ [SigEntry.mk (createSignature row columns) i]).find?
            (fun e => e.signature == s)).map (fun e => e.index) := by
        intro s
        rw [lookupSeen_cons, List.find?_append]
        by_cases hss : createSignature row columns = s
        · rw [if_pos hss]
          have hfnone : acc.find? (fun e => e.signature == s) = none := by
            rw [← hss]
            exact hfind
          rw [hfnone]
          rw [List.find?_cons]
          have hb : ((SigEntry.mk (createSignature row columns) i).signature == s) = true := by
            simp [hss]
          rw [hb]
          rfl
        · rw [if_neg hss, hinv s]
          cases hacc : acc.find? (fun e => e.signature == s) with
          | some e => rfl
          | none =>
            rw [List.find?_cons]
            have hb : ((SigEntry.mk (createSignature row columns) i).signature == s) = false := by
              simp [hss]
            rw [hb]
            rfl
      obtain ⟨h1, h2⟩ := ih (i + 1) ((createSignature row columns, i) :: seen)
        (acc ++ [⟨createSignature row columns, i⟩]) hinv2
      constructor
      · show row :: (fuzzyLoop columns 1 alg rest (i + 1)
            (acc ++ [⟨createSignature row columns, i⟩])).1 =
          row :: (exactLoop columns rest (i + 1)
            ((createSignature row columns, i) :: seen)).1
        rw [h1]
      · exact h2
    | some e =>
      have hfsms : findSimilarMatch (createSignature row columns) acc 1 alg =
          some ⟨createSignature row columns, e.index, 1⟩ := by
        rw [hfsm, hfind]
        rfl
      have hlook : lookupSeen seen (createSignature row columns) = some e.index := by
        rw [hinv, hfind]
        rfl
      rw [fuzzyLoop_cons_some columns 1 alg row rest i acc _ hfsms,
        exactLoop_cons_some columns row rest i e.index seen hlook]
      obtain ⟨h1, h2⟩ := ih (i + 1) seen acc hinv
      constructor
      · exact h1
      · show (e.index, i) :: (fuzzyLoop columns 1 alg rest (i + 1) acc).2.map
            (fun d => (d.originalIndex, d.duplicateIndex)) =
          (e.index, i) :: (exactLoop columns rest (i + 1) seen).2.map
            (fun d => (d.originalIndex, d.duplicateIndex))
        rw [h2]

/-- C4 (amended): with threshold 1.0 the fuzzy reducer agrees with the exact
reducer — same accepted rows and same (original index, duplicate index)
pairs — for the Levenshtein and Jaro–Winkler algorithms, under which only
identical signatures attain score 1.  (Dice can score 1 on distinct strings,
so the claim as stated over every algorithm fails; see the counterexample.) -/
theorem c4_threshold_one_equals_exact (data : List Record) (columns : List String)
    (alg : SimilarityAlgorithm) (halg : alg = .levenshtein ∨ alg = .jaroWinkler) :
    (removeFuzzyDuplicates data columns 1 alg).1 =
      (removeExactDuplicates data columns).1 ∧
    (removeFuzzyDuplicates data columns 1 alg).2.map
        (fun d => (d.originalIndex, d.duplicateIndex)) =
      (removeExactDuplicates data columns).2.map
        (fun d => (d.originalIndex, d.duplicateIndex)) :=
  fuzzy_exact_loops_agree columns alg halg data 0 [] [] (fun _ => rfl)

/-- Closed witness for the amended C4: the three-row input with a duplicated
signature, run with Levenshtein at threshold 1. -/
theorem c4_threshold_one_equals_exact_witness :
    (removeFuzzyDuplicates c1wData ["Name"] 1 .levenshtein).1 =
      (removeExactDuplicates c1wData ["Name"]).1 ∧
    (removeFuzzyDuplicates c1wData ["Name"] 1 .levenshtein).2.map
        (fun d => (d.originalIndex, d.duplicateIndex)) =
      (removeExactDuplicates c1wData ["Name"]).2.map
        (fun d => (d.originalIndex, d.duplicateIndex)) :=
  c4_threshold_one_equals_exact c1wData ["Name"] .levenshtein (Or.inl rfl)

/-- First row of the C4 counterexample: value "aabab". -/
def c4cxRowA : Record := fun k => if k = "A" then some (.vstr "aabab") else none

/-- Second row of the C4 counterexample: value "abaab", a distinct string
with exactly the same bigram multiset as "aabab". -/
def c4cxRowB : Record := fun k => if k = "A" then some (.vstr "abaab") else none

theorem dice_aabab_abaab : calculateSimilarity "abaab" "aabab" .dice = 1 := by
  show diceCoefficient "abaab".data "aabab".data = 1
  unfold diceCoefficient
  rw [if_neg (by decide)]
  rw [show (@List.bagInter _ instBEqOfDecidableEq (bigrams "abaab".data)
      (bigrams "aabab".data)).length = 4 from by decide]
  rw [show (bigrams "abaab".data).length = 4 from by decide]
  rw [show (bigrams "aabab".data).length = 4 from by decide]
  norm_num

/-- C4 counterexample: under the Dice algorithm with threshold 1.0 the fuzzy
reducer merges the two distinct signatures "aabab" and "abaab" (their bigram
multisets coincide, so they score 1.0), while the exact reducer keeps both
rows, so the claimed equivalence for every algorithm is false. -/
theorem c4_counterexample :
    ¬ ((removeFuzzyDuplicates [c4cxRowA, c4cxRowB] ["A"] 1 .dice).1.length =
       (removeExactDuplicates [c4cxRowA, c4cxRowB] ["A"]).1.length) := by
  have hexact : (removeExactDuplicates [c4cxRowA, c4cxRowB] ["A"]).1.length = 2 := by
    decide
  have hsigA : createSignature c4cxRowA ["A"] = "aabab" := by decide
  have hsigB : createSignature c4cxRowB ["A"] = "abaab" := by decide
  have hfsm1 : findSimilarMatch (createSignature c4cxRowA ["A"]) [] 1 .dice = none := rfl
  have hsc : calculateSimilarity (createSignature c4cxRowB ["A"])
      (SigEntry.mk (createSignature c4cxRowA ["A"]) 0).signature .dice = 1 := by
    rw [hsigA, hsigB]
    exact dice_aabab_abaab
  have hloop : bestScanLoop
      (fun e => calculateSimilarity (createSignature c4cxRowB ["A"]) e.signature .dice) 1
      [SigEntry.mk (createSignature c4cxRowA ["A"]) 0] none =
      some (SigEntry.mk (createSignature c4cxRowA ["A"]) 0,
        calculateSimilarity (createSignature c4cxRowB ["A"])
          (SigEntry.mk (createSignature c4cxRowA ["A"]) 0).signature .dice) := by
    rw [bestScanLoop_cons]
    have hb : betterCond
        (fun e => calculateSimilarity (createSignature c4cxRowB ["A"]) e.signature .dice) 1
        (SigEntry.mk (createSignature c4cxRowA ["A"]) 0) none = true := by
      rw [betterCond_none]
      rw [hsc]
      decide
    rw [hb, if_pos rfl]
    rfl
  have hfsm2 : findSimilarMatch (createSignature c4cxRowB ["A"])
      ([] ++ [SigEntry.mk (createSignature c4cxRowA ["A"]) 0]) 1 .dice =
      some ⟨(SigEntry.mk (createSignature c4cxRowA ["A"]) 0).signature, 0,
        calculateSimilarity (createSignature c4cxRowB ["A"])
          (SigEntry.mk (createSignature c4cxRowA ["A"]) 0).signature .dice⟩ := by
    unfold findSimilarMatch
    rw [if_neg (by rw [hsigA]; decide)]
    rw [show ([] ++ [SigEntry.mk (createSignature c4cxRowA ["A"]) 0]) =
      [SigEntry.mk (createSignature c4cxRowA ["A"]) 0] from rfl]
    rw [hloop]
    rfl
  have hfuzzy : (removeFuzzyDuplicates [c4cxRowA, c4cxRowB] ["A"] 1 .dice).1.length = 1 := by
    unfold removeFuzzyDuplicates
    rw [fuzzyLoop_cons_none ["A"] 1 .dice c4cxRowA [c4cxRowB] 0 [] hfsm1]
    rw [show ([] : List SigEntry) ++ [⟨createSignature c4cxRowA ["A"], 0⟩] =
      [SigEntry.mk (createSignature c4cxRowA ["A"]) 0] from rfl] at *
    rw [fuzzyLoop_cons_some ["A"] 1 .dice c4cxRowB [] 1
      [SigEntry.mk (createSignature c4cxRowA ["A"]) 0] _ hfsm2]
    rfl
  intro h
  rw [hexact, hfuzzy] at h
  cases h

theorem calculateSimilarityMC_empty_right (a : String) (alg : SimilarityAlgorithm) :
    calculateSimilarityMC a "" alg = 0 := by
  unfold calculateSimilarityMC
  rw [if_pos (Or.inr rfl)]

/-- C5 (amended): a source value normalizing to the empty string
short-circuits to "no match" for every threshold (no candidate is consulted,
and the emitted entry carries a null target index and score 0); for positive
thresholds the selected candidate is always an entry of the candidate list
with a non-empty normalized value whose score meets the threshold — but at
threshold 0 an empty-valued candidate can be selected with score 0, so the
original "never matches for every threshold" is false on the target side. -/
theorem c5_empty_value_matching (sv : String) (f2v f2v2 : List F2Entry) (thr thr2 : ℚ)
    (alg alg2 : SimilarityAlgorithm) (b : F2Entry × ℚ) (c1 c2 : String)
    (a1 a2 : List String) (i : Nat) (row : Record)
    (hthr : 0 < thr) (hb : findBestMatch sv f2v thr alg = some b)
    (hrow : normalizeValue (row c1) = "") :
    findBestMatch "" f2v2 thr2 alg2 = none ∧
    (matchRow f2v2 thr2 alg2 c1 c2 a1 a2 i row).file2RowIndex = none ∧
    (matchRow f2v2 thr2 alg2 c1 c2 a1 a2 i row).score = 0 ∧
    thr ≤ b.2 ∧
    (∃ e ∈ f2v, e = b.1 ∧ b.2 = calculateSimilarityMC sv e.value alg ∧ e.value ≠ "") := by
  have hnone : ∀ (l : List F2Entry) (t : ℚ) (g : SimilarityAlgorithm),
      findBestMatch "" l t g = none := by
    intro l t g
    unfold findBestMatch
    rw [if_pos rfl]
  have hmr : findBestMatch (normalizeValue (row c1)) f2v2 thr2 alg2 = none := by
    rw [hrow]
    exact hnone f2v2 thr2 alg2
  refine ⟨hnone f2v2 thr2 alg2, ?_, ?_, ?_, ?_⟩
  · unfold matchRow
    rw [hmr]
    rfl
  · unfold matchRow
    rw [hmr]
  · unfold findBestMatch at hb
    by_cases hsv : sv = ""
    · rw [if_pos hsv] at hb
      cases hb
    · rw [if_neg hsv] at hb
      rcases bestScanLoop_some_spec _ thr f2v none b hb with ⟨heq, _⟩ | ⟨_, e, _, _, hp, hthre, _, _, _⟩
      · cases heq
      · rw [hp]
        exact hthre
  · unfold findBestMatch at hb
    by_cases hsv : sv = ""
    · rw [if_pos hsv] at hb
      cases hb
    · rw [if_neg hsv] at hb
      rcases bestScanLoop_some_spec _ thr f2v none b hb with ⟨heq, _⟩ |
        ⟨pre, e, post, hsplit, hp, hthre, _, _, _⟩
      · cases heq
      · refine ⟨e, by rw [hsplit]; simp, by rw [hp], by rw [hp], ?_⟩
        intro hev
        rw [hev] at hthre
        rw [calculateSimilarityMC_empty_right sv alg] at hthre
        exact absurd hthr (not_lt_of_le hthre)

/-- Closed witness for the amended C5 at concrete inputs: an empty source
value against one candidate, and a one-candidate search with a qualifying
non-empty candidate at threshold one half. -/
theorem c5_empty_value_matching_witness :
    findBestMatch "" [F2Entry.mk 0 "b" (fun _ => none)] (1 / 2) .levenshtein = none ∧
    (matchRow [F2Entry.mk 0 "b" (fun _ => none)] (1 / 2) .levenshtein "A" "B" [] [] 0
      (fun _ => none)).file2RowIndex = none ∧
    (matchRow [F2Entry.mk 0 "b" (fun _ => none)] (1 / 2) .levenshtein "A" "B" [] [] 0
      (fun _ => none)).score = 0 ∧
    (1 : ℚ) ≤ (F2Entry.mk 0 "a" (fun _ => none), (1 : ℚ)).2 ∧
    (∃ e ∈ [F2Entry.mk 0 "a" (fun _ => none)],
      e = (F2Entry.mk 0 "a" (fun _ => none), (1 : ℚ)).1 ∧
      (F2Entry.mk 0 "a" (fun _ => none), (1 : ℚ)).2 =
        calculateSimilarityMC "a" e.value .levenshtein ∧ e.value ≠ "") := by
  have hb : findBestMatch "a" [F2Entry.mk 0 "a" (fun _ => none)] 1 .levenshtein =
      some (F2Entry.mk 0 "a" (fun _ => none), (1 : ℚ)) := by
    unfold findBestMatch
    rw [if_neg (by decide)]
    rw [bestScanLoop_cons]
    have hsc : calculateSimilarityMC "a" (F2Entry.mk 0 "a" (fun _ => none)).value
        .levenshtein = 1 := by
      rw [calculateSimilarityMC_eq _ _ _ (by decide)]
      exact (calculateSimilarity_lev_ge_one_iff "a" "a").mpr rfl |> fun h =>
        le_antisymm (calculateSimilarity_le_one "a" "a" .levenshtein) h
    have hbc : betterCond
        (fun e => calculateSimilarityMC "a" e.value .levenshtein) 1
        (F2Entry.mk 0 "a" (fun _ => none)) none = true := by
      rw [betterCond_none, hsc]
      decide
    rw [hbc, if_pos rfl]
    rw [show bestScanLoop (fun e => calculateSimilarityMC "a" e.value .levenshtein) 1 []
        (some (F2Entry.mk 0 "a" (fun _ => none),
          calculateSimilarityMC "a" (F2Entry.mk 0 "a" (fun _ => none)).value .levenshtein)) =
        some (F2Entry.mk 0 "a" (fun _ => none),
          calculateSimilarityMC "a" (F2Entry.mk 0 "a" (fun _ => none)).value .levenshtein)
      from rfl]
    rw [hsc]
  exact c5_empty_value_matching "a" [F2Entry.mk 0 "a" (fun _ => none)]
    [F2Entry.mk 0 "b" (fun _ => none)] 1 (1 / 2) .levenshtein .levenshtein
    (F2Entry.mk 0 "a" (fun _ => none), (1 : ℚ)) "A" "B" [] [] 0 (fun _ => none)
    (by norm_num) hb rfl

/-- C5 counterexample: at threshold 0 (a value inside the spec's [0,1]
range) a candidate whose normalized value is empty is matched — the guard
returns score 0 and 0 ≥ 0 qualifies — so "a record with empty normalized
value never matches any candidate, for every threshold" is false. -/
theorem c5_counterexample :
    (matchRow [F2Entry.mk 0 "" (fun _ => none)] 0 .dice "A" "B" [] [] 0
      (fun k => if k = "A" then some (.vstr "a") else none)).file2RowIndex = some 0 := rfl
